import Mathlib

/-!
Verification of the mta-bundler path-resolution and manifest-rewriting
subsystem.  The Go sources are shallowly embedded: strings are modelled as
lists of characters (`GoStr`), the relevant functions of Go's
`path/filepath` package (Unix flavour, no volume names) are modelled from
their documented lexical algorithms, and the repository's functions are
translated definition by definition.
-/

namespace MtaBundler

/-- Strings of the Go program, modelled as lists of characters. -/
abbrev GoStr := List Char

/-- Convert a Lean string literal to a `GoStr`. -/
def str (s : String) : GoStr := s.toList

/-- The separator character of Unix `path/filepath`. -/
def sepChar : Char := '/'

/-- Split a string on `'/'`.  `""` splits to `[""]`, `"a/"` to `["a",""]`,
mirroring Go's `strings.Split(s, "/")`. -/
def splitOnSlash : GoStr → List GoStr
  | [] => [[]]
  | c :: rest =>
    if c = '/' then [] :: splitOnSlash rest
    else
      match splitOnSlash rest with
      | [] => [[c]]
      | h :: t => (c :: h) :: t

/-- Join segments with `'/'` between them, mirroring Go's
`strings.Join(segs, "/")`. -/
def joinSegs : List GoStr → GoStr
  | [] => []
  | [s] => s
  | s :: rest => s ++ '/' :: joinSegs rest

/-- One step of the lexical cleaning loop of Go's `filepath.Clean`:
empty and `"."` elements are dropped; `".."` pops a previous element
unless the stack is empty (dropped when rooted, kept when relative) or the
previous element is itself `".."`. -/
def cleanStep (rooted : Bool) (stack : List GoStr) (seg : GoStr) : List GoStr :=
  if seg = [] ∨ seg = str "." then stack
  else if seg = str ".." then
    match stack with
    | [] => if rooted then [] else [str ".."]
    | top :: rest => if top = str ".." then seg :: stack else rest
  else seg :: stack

/-- Cleaned segments of a path, in order. -/
def cleanSegs (rooted : Bool) (segs : List GoStr) : List GoStr :=
  (segs.foldl (cleanStep rooted) []).reverse

/-- Model of Go `filepath.IsAbs` (Unix): the path starts with `'/'`. -/
def goIsAbs (s : GoStr) : Bool :=
  match s with
  | [] => false
  | c :: _ => decide (c = '/')

/-- Model of Go `filepath.Clean` (Unix): shortest lexically equivalent
path — collapse multiple separators, drop `.` elements, resolve inner
`..`, drop `..` at the root, `"."` for the empty result. -/
def goClean (s : GoStr) : GoStr :=
  let rooted := goIsAbs s
  let segs := cleanSegs rooted (splitOnSlash s)
  if rooted then '/' :: joinSegs segs
  else if segs = [] then str "."
  else joinSegs segs

/-- Model of Go `filepath.Join`: ignore leading empty elements, join the
rest with `'/'` and `Clean` the result; all-empty input gives `""`. -/
def goJoinList (elems : List GoStr) : GoStr :=
  match elems.dropWhile (fun e => e = []) with
  | [] => []
  | l => goClean (joinSegs l)

/-- Binary `filepath.Join`. -/
def goJoin (a b : GoStr) : GoStr := goJoinList [a, b]

/-- Model of Go `filepath.Dir` (Unix): `Clean` of everything up to and
including the final separator; `"."` when there is no separator. -/
def goDir (s : GoStr) : GoStr :=
  goClean ((s.reverse.dropWhile (fun c => c ≠ '/')).reverse)

/-- Model of Go `filepath.Base` (Unix): last element after stripping
trailing separators; `"."` for the empty path, `"/"` for all-separator
paths. -/
def goBase (s : GoStr) : GoStr :=
  if s = [] then str "."
  else
    let s1 := (s.reverse.dropWhile (fun c => c = '/')).reverse
    if s1 = [] then str "/"
    else (s1.reverse.takeWhile (fun c => c ≠ '/')).reverse

/-- Scan a reversed path for the extension: stop at `'/'` with no
extension, return from the final dot otherwise.  `acc` holds the already
scanned characters in original order. -/
def goExtAux : GoStr → GoStr → GoStr
  | [], _ => []
  | c :: rest, acc =>
    if c = '/' then []
    else if c = '.' then c :: acc
    else goExtAux rest (c :: acc)

/-- Model of Go `filepath.Ext`: the suffix beginning at the final dot in
the final element of the path; empty when there is no dot. -/
def goExt (s : GoStr) : GoStr := goExtAux s.reverse []

/-- ASCII lower-casing of one character (model of `strings.ToLower` on
the ASCII range, which covers every string this program compares). -/
def lowerChar (c : Char) : Char :=
  if 'A' ≤ c ∧ c ≤ 'Z' then Char.ofNat (c.toNat + 32) else c

/-- Model of Go `strings.ToLower` (ASCII range). -/
def goToLower (s : GoStr) : GoStr := s.map lowerChar

/-- Strip the longest common leading run of two element lists, returning
the two remainders (the comparison loop of `filepath.Rel`). -/
def dropCommon : List GoStr → List GoStr → List GoStr × List GoStr
  | b :: bs, t :: ts =>
    if b = t then dropCommon bs ts else (b :: bs, t :: ts)
  | bs, ts => (bs, ts)

/-- Element list of a cleaned path as traversed by `filepath.Rel`:
`""` has no elements, `"/"` has the single element `""`, otherwise the
segments of the string (a leading `'/'` contributing an empty first
element). -/
def pathElems (p : GoStr) : List GoStr :=
  if p = [] then []
  else if p = str "/" then [[]]
  else splitOnSlash p

/-- Model of Go `filepath.Rel` (Unix, no volume names): `Clean` both
arguments, succeed with `"."` on equality, fail when exactly one side is
rooted or when the first differing base element is `".."`, otherwise
climb with `".."` for every remaining base element and descend into the
remaining target elements. -/
def goRel (basep targp : GoStr) : Option GoStr :=
  let bc := goClean basep
  let t := goClean targp
  if bc = t then some (str ".")
  else
    let b := if bc = str "." then [] else bc
    if goIsAbs b ≠ goIsAbs t then none
    else
      let p := dropCommon (pathElems b) (pathElems t)
      if p.1.head? = some (str "..") then none
      else if p.1 ≠ [] then
        some (joinSegs (List.replicate p.1.length (str "..") ++ p.2))
      else some (joinSegs p.2)

/-- Model of Go `filepath.Abs`: `Clean` an absolute path, otherwise join
it onto the working directory. -/
def goAbs (cwd p : GoStr) : GoStr :=
  if goIsAbs p then goClean p else goJoin cwd p

/-- A well-formed path segment: non-empty, separator-free, neither `.`
nor `..`.  Paths built from such segments are fixed points of `Clean`,
which is what the general path theorems quantify over. -/
def goodSeg (s : GoStr) : Bool :=
  decide (s ≠ [] ∧ '/' ∉ s ∧ s ≠ str "." ∧ s ≠ str "..")

/-- All segments of a list are well-formed. -/
def goodSegs (l : List GoStr) : Bool := l.all goodSeg

/-- The absolute path with the given segments. -/
def mkAbs (segs : List GoStr) : GoStr := '/' :: joinSegs segs

/-! ## Manifest data model (src/meta.go) -/

/-- A `script` element of the manifest (struct `Script` in meta.go). -/
structure Script where
  src : GoStr
  type : GoStr
  cache : GoStr
  validate : GoStr
deriving DecidableEq, Repr

/-- A `map` element of the manifest (struct `Map` in meta.go). -/
structure MapRef where
  src : GoStr
  dimension : GoStr
deriving DecidableEq, Repr

/-- A `file` element of the manifest (struct `File` in meta.go). -/
structure FileRef where
  src : GoStr
  download : GoStr
deriving DecidableEq, Repr

/-- A `config` element of the manifest (struct `Config` in meta.go). -/
structure ConfigRef where
  src : GoStr
  type : GoStr
deriving DecidableEq, Repr

/-- An `html` element of the manifest (struct `HTML` in meta.go). -/
structure HtmlRef where
  src : GoStr
  default : GoStr
  raw : GoStr
deriving DecidableEq, Repr

/-- The file-referencing fields of a parsed manifest (struct `Meta`). -/
structure Meta where
  scripts : List Script
  maps : List MapRef
  files : List FileRef
  configs : List ConfigRef
  htmls : List HtmlRef
deriving DecidableEq, Repr

/-- How a file was referenced in the manifest (`ReferenceType` in the
internal resource package). -/
inductive ReferenceType where
  | script
  | map
  | config
  | file
  | html
deriving DecidableEq, Repr

/-- A file reference with its resolved full path (struct
`FileReference`). -/
structure FileReference where
  fullPath : GoStr
  referenceType : ReferenceType
  relativePath : GoStr
deriving DecidableEq, Repr

/-- An MTA resource (struct `Resource`). -/
structure Resource where
  metaXMLPath : GoStr
  baseDir : GoStr
  name : GoStr
  meta : Meta
  files : List FileReference
deriving DecidableEq, Repr

/-- `GetAllFiles` of meta.go: one `FileReference` per element, scripts
then maps then configs then files then htmls, each `fullPath` being the
manifest directory joined with the declared source. -/
def GetAllFiles (meta : Meta) (metaXMLPath : GoStr) : List FileReference :=
  let baseDir := goDir metaXMLPath
  meta.scripts.map (fun s => ⟨goJoin baseDir s.src, ReferenceType.script, s.src⟩)
    ++ meta.maps.map (fun m => ⟨goJoin baseDir m.src, ReferenceType.map, m.src⟩)
    ++ meta.configs.map (fun c => ⟨goJoin baseDir c.src, ReferenceType.config, c.src⟩)
    ++ meta.files.map (fun f => ⟨goJoin baseDir f.src, ReferenceType.file, f.src⟩)
    ++ meta.htmls.map (fun h => ⟨goJoin baseDir h.src, ReferenceType.html, h.src⟩)

/-- The pure part of `NewResource`: absolutise the manifest path, derive
the base directory and resource name, extract the file references
(reading and XML-parsing the manifest are the caller's I/O). -/
def mkResource (cwd metaXMLPath : GoStr) (meta : Meta) : Resource :=
  let absPath := goAbs cwd metaXMLPath
  { metaXMLPath := absPath
    baseDir := goDir absPath
    name := goBase (goDir absPath)
    meta := meta
    files := GetAllFiles meta absPath }

/-- `GetLuaFiles`: the script references whose full path has
(lower-cased) extension `.lua`. -/
def GetLuaFiles (r : Resource) : List FileReference :=
  r.files.filter
    (fun f => decide (f.referenceType = ReferenceType.script ∧
      goToLower (goExt f.fullPath) = str ".lua"))

/-- The bucket a script's declared `type` selects in
`GetLuaFilesByType` (the `switch strings.ToLower(script.Type)` with its
default-to-server branch). -/
inductive Bucket where
  | client
  | server
  | shared
deriving DecidableEq, Repr

/-- Bucket selection of `GetLuaFilesByType`. -/
def bucketOf (sc : Script) : Bucket :=
  let t := goToLower sc.type
  if t = str "client" then Bucket.client
  else if t = str "server" then Bucket.server
  else if t = str "shared" then Bucket.shared
  else Bucket.server

/-- The `FileReference` `GetLuaFilesByType` constructs for a script. -/
def scriptFileRef (baseDir : GoStr) (sc : Script) : FileReference :=
  ⟨goJoin baseDir sc.src, ReferenceType.script, sc.src⟩

/-- The loop of `GetLuaFilesByType` over the declared scripts: skip
scripts whose (lower-cased) source extension is not `.lua`, append the
rest to the bucket their type selects. -/
def getLuaFilesByTypeAux (baseDir : GoStr) :
    List Script → List FileReference × List FileReference × List FileReference
  | [] => ([], [], [])
  | sc :: rest =>
    let (c, s, sh) := getLuaFilesByTypeAux baseDir rest
    if goToLower (goExt sc.src) = str ".lua" then
      match bucketOf sc with
      | Bucket.client => (scriptFileRef baseDir sc :: c, s, sh)
      | Bucket.server => (c, scriptFileRef baseDir sc :: s, sh)
      | Bucket.shared => (c, s, scriptFileRef baseDir sc :: sh)
    else (c, s, sh)

/-- `GetLuaFilesByType`: scripts grouped as (client, server, shared). -/
def GetLuaFilesByType (r : Resource) :
    List FileReference × List FileReference × List FileReference :=
  getLuaFilesByTypeAux r.baseDir r.meta.scripts

/-! ## Output-path computation (internal/resource/resource_files.go) -/

/-- `getBaseOutputDir`: the output file argument itself when absolute,
resolved against the working directory when relative, the resource's
base directory when unset.  (`os.Getwd` is modelled as always
available.) -/
def getBaseOutputDirM (cwd : GoStr) (r : Resource) (outputFile : GoStr) : GoStr :=
  if outputFile ≠ [] then
    if goIsAbs outputFile then outputFile
    else goJoin cwd outputFile
  else r.baseDir

/-- `generateOutputFilename`: replace an exact `.lua` extension of the
base filename by `.luac`, leave every other filename unchanged. -/
def generateOutputFilename (relativePath : GoStr) : GoStr :=
  let baseName := goBase relativePath
  if goExt baseName = str ".lua" then
    baseName.take (baseName.length - 4) ++ str ".luac"
  else baseName

/-- `buildFullRelativeDir`. -/
def buildFullRelativeDir (relativeFromInput relativeDir : GoStr) : GoStr :=
  if relativeFromInput ≠ [] ∧ relativeFromInput ≠ str "." then
    if relativeDir = str "." then relativeFromInput
    else goJoin relativeFromInput relativeDir
  else relativeDir

/-- `calculateOutputPathWithCustomDir`; `none` models the error return
of the failed `filepath.Rel`. -/
def calculateOutputPathWithCustomDir (r : Resource)
    (absInputPath baseOutputDir : GoStr) (fileRef : FileReference)
    (baseName : GoStr) : Option GoStr :=
  match goRel absInputPath r.baseDir with
  | none => none
  | some relativeFromInput =>
    let fullRelativeDir :=
      buildFullRelativeDir relativeFromInput (goDir fileRef.relativePath)
    if fullRelativeDir = str "." ∨ fullRelativeDir = [] then
      some (goJoin baseOutputDir baseName)
    else some (goJoinList [baseOutputDir, fullRelativeDir, baseName])

/-- `calculateOutputPathSameStructure`. -/
def calculateOutputPathSameStructure (baseOutputDir : GoStr)
    (fileRef : FileReference) (baseName : GoStr) : GoStr :=
  let relativeDir := goDir fileRef.relativePath
  if relativeDir = str "." then goJoin baseOutputDir baseName
  else goJoinList [baseOutputDir, relativeDir, baseName]

/-- `calculateOutputPath`. -/
def calculateOutputPath (r : Resource)
    (absInputPath outputFile baseOutputDir : GoStr)
    (fileRef : FileReference) : Option GoStr :=
  let baseName := generateOutputFilename fileRef.relativePath
  if outputFile ≠ [] then
    calculateOutputPathWithCustomDir r absInputPath baseOutputDir fileRef baseName
  else some (calculateOutputPathSameStructure baseOutputDir fileRef baseName)

/-- `calculateFileOutputPathWithCustomDir` (non-script references). -/
def calculateFileOutputPathWithCustomDir (r : Resource)
    (absInputPath baseOutputDir : GoStr) (fileRef : FileReference) :
    Option GoStr :=
  match goRel absInputPath r.baseDir with
  | none => none
  | some relativeFromInput =>
    let fullRelativePath :=
      if relativeFromInput ≠ [] ∧ relativeFromInput ≠ str "." then
        goJoin relativeFromInput fileRef.relativePath
      else fileRef.relativePath
    some (goJoin baseOutputDir fullRelativePath)

/-- `calculateFileOutputPath` (non-script references). -/
def calculateFileOutputPath (r : Resource)
    (absInputPath outputFile baseOutputDir : GoStr)
    (fileRef : FileReference) : Option GoStr :=
  if outputFile ≠ [] then
    calculateFileOutputPathWithCustomDir r absInputPath baseOutputDir fileRef
  else some (goJoin baseOutputDir fileRef.relativePath)

/-- `getNonScriptFiles`. -/
def getNonScriptFiles (r : Resource) : List FileReference :=
  r.files.filter (fun f => decide (f.referenceType ≠ ReferenceType.script))

/-! ## Manifest rewriting, individual mode (copyAndModifyMetaFile)

`copyAndModifyMetaFile` runs `luaToLuacRegex.ReplaceAllStringFunc` over
the manifest text.  The compiled pattern is

  `(src\s*=\s*"[^"]*?)\.lua(")|(src\s*=\s*'[^']*?)\.lua(')`

and the callback replaces, inside each match, the first occurrence of
`.lua"` when the match contains a double quote and the first occurrence
of `.lua'` otherwise.  The scanner below models the regex's leftmost
matching: at each position a match attempt requires `src`, optional
spaces, `=`, optional spaces, a quote `q`, then — by the lazy `[^q]*?` —
the shortest run of non-`q` characters followed by `.lua` and the
closing `q`, which exists exactly when the text up to the next `q` ends
in `.lua` (the quote after that run is the first `q`, so `.lua` must sit
directly before it). -/

/-- The double-quote character. -/
def dquote : Char := Char.ofNat 34

/-- The single-quote character. -/
def squote : Char := Char.ofNat 39

/-- Whitespace of the regex class `\s`. -/
def goSpace (c : Char) : Bool :=
  c = ' ' ∨ c = '\t' ∨ c = '\n' ∨ c = '\r' ∨ c = Char.ofNat 12

/-- Try to match `luaToLuacRegex` at the start of `s`; on success return
the matched text and the remainder after it. -/
def matchSrcAt (s : GoStr) : Option (GoStr × GoStr) :=
  match s with
  | 's' :: 'r' :: 'c' :: r0 =>
    let sp1 := r0.takeWhile goSpace
    match r0.dropWhile goSpace with
    | '=' :: r2 =>
      let sp2 := r2.takeWhile goSpace
      match r2.dropWhile goSpace with
      | q :: r4 =>
        if q = dquote ∨ q = squote then
          let v := r4.takeWhile (fun c => decide (c ≠ q))
          match r4.drop v.length with
          | _ :: rest =>
            if (str ".lua").isSuffixOf v then
              some (str "src" ++ sp1 ++ '=' :: sp2 ++ q :: v ++ [q], rest)
            else none
          | [] => none
        else none
      | [] => none
    | _ => none
  | _ => none

/-- Model of `strings.Replace(s, old, new, 1)`: replace the first
occurrence of `old`. -/
def replaceFirst : GoStr → GoStr → GoStr → GoStr
  | [], _, _ => []
  | c :: rest, old, new =>
    if old.isPrefixOf (c :: rest) then new ++ (c :: rest).drop old.length
    else c :: replaceFirst rest old new

/-- The replacement callback of `copyAndModifyMetaFile`: keyed on
whether the match contains a double quote. -/
def luaSrcCallback (m : GoStr) : GoStr :=
  if m.contains dquote then
    replaceFirst m (str ".lua" ++ [dquote]) (str ".luac" ++ [dquote])
  else
    replaceFirst m (str ".lua" ++ [squote]) (str ".luac" ++ [squote])

/-- Scan loop of `ReplaceAllStringFunc`: at each position try the
pattern, emit the rewritten match and continue after it, otherwise emit
one character and move on.  Fuel bounds the recursion; every step
consumes at least one character, so `s.length` fuel is enough. -/
def replaceAllLuaSrcAux : Nat → GoStr → GoStr
  | 0, s => s
  | _ + 1, [] => []
  | fuel + 1, c :: rest =>
    match matchSrcAt (c :: rest) with
    | some (m, after) => luaSrcCallback m ++ replaceAllLuaSrcAux fuel after
    | none => c :: replaceAllLuaSrcAux fuel rest

/-- The text transformation `copyAndModifyMetaFile` applies to the
manifest on its way from the source file to the output file. -/
def replaceAllLuaSrc (s : GoStr) : GoStr := replaceAllLuaSrcAux s.length s

/-! ## Manifest rewriting, merged mode (copyAndModifyMergedMetaFile)

`copyAndModifyMergedMetaFile` parses the manifest with `xml.Unmarshal`
into `Meta`, clears `Meta.Scripts`, conditionally appends the two
synthetic script entries, and serialises the struct back with
`xml.MarshalIndent`.  An XML document is modelled as the list of
children of the `<meta>` root: `xml.Unmarshal` collects the elements a
struct field names (in document order, reading the known attributes) and
ignores every other element and every comment; `xml.Marshal` emits only
the struct's fields, in struct-field order. -/

/-- A child of the manifest's root element. -/
inductive XmlItem where
  | elem (name : GoStr) (attrs : List (GoStr × GoStr))
  | comment (text : GoStr)
deriving DecidableEq, Repr

/-- Attribute lookup; a missing attribute decodes to the empty string. -/
def lookupAttr (attrs : List (GoStr × GoStr)) (name : GoStr) : GoStr :=
  match attrs.find? (fun a => decide (a.1 = name)) with
  | some a => a.2
  | none => []

/-- Model of `xml.Unmarshal` into `Meta`: collect the five known element
kinds by tag name in document order, drop everything else. -/
def parseMetaDoc (items : List XmlItem) : Meta where
  scripts := items.filterMap fun i =>
    match i with
    | XmlItem.elem n a =>
      if n = str "script" then
        some ⟨lookupAttr a (str "src"), lookupAttr a (str "type"),
          lookupAttr a (str "cache"), lookupAttr a (str "validate")⟩
      else none
    | _ => none
  maps := items.filterMap fun i =>
    match i with
    | XmlItem.elem n a =>
      if n = str "map" then
        some ⟨lookupAttr a (str "src"), lookupAttr a (str "dimension")⟩
      else none
    | _ => none
  files := items.filterMap fun i =>
    match i with
    | XmlItem.elem n a =>
      if n = str "file" then
        some ⟨lookupAttr a (str "src"), lookupAttr a (str "download")⟩
      else none
    | _ => none
  configs := items.filterMap fun i =>
    match i with
    | XmlItem.elem n a =>
      if n = str "config" then
        some ⟨lookupAttr a (str "src"), lookupAttr a (str "type")⟩
      else none
    | _ => none
  htmls := items.filterMap fun i =>
    match i with
    | XmlItem.elem n a =>
      if n = str "html" then
        some ⟨lookupAttr a (str "src"), lookupAttr a (str "default"),
          lookupAttr a (str "raw")⟩
      else none
    | _ => none

/-- Model of `xml.Marshal` of `Meta`: the struct's fields in field order
(Scripts, Maps, Files, Configs, HTMLs), nothing else. -/
def marshalMetaDoc (m : Meta) : List XmlItem :=
  m.scripts.map (fun s => XmlItem.elem (str "script")
      [(str "src", s.src), (str "type", s.type),
       (str "cache", s.cache), (str "validate", s.validate)])
    ++ m.maps.map (fun x => XmlItem.elem (str "map")
      [(str "src", x.src), (str "dimension", x.dimension)])
    ++ m.files.map (fun x => XmlItem.elem (str "file")
      [(str "src", x.src), (str "download", x.download)])
    ++ m.configs.map (fun x => XmlItem.elem (str "config")
      [(str "src", x.src), (str "type", x.type)])
    ++ m.htmls.map (fun x => XmlItem.elem (str "html")
      [(str "src", x.src), (str "default", x.default), (str "raw", x.raw)])

/-- The struct-level core of `copyAndModifyMergedMetaFile`: clear the
scripts, append a client entry (`client.luac`, `client`, cache `true`)
when there are client files, then a server entry (`server.luac`,
`server`, cache `true`) when there are server files. -/
def mergedMetaTransform (m : Meta) (hasClientFiles hasServerFiles : Bool) : Meta :=
  let scripts0 : List Script := []
  let scripts1 :=
    if hasClientFiles then
      scripts0 ++ [⟨str "client.luac", str "client", str "true", []⟩]
    else scripts0
  let scripts2 :=
    if hasServerFiles then
      scripts1 ++ [⟨str "server.luac", str "server", str "true", []⟩]
    else scripts1
  { m with scripts := scripts2 }

/-- `copyAndModifyMergedMetaFile` at the document level: parse, apply
the struct-level transform, re-marshal. -/
def copyAndModifyMergedMetaFileDoc (doc : List XmlItem)
    (hasClientFiles hasServerFiles : Bool) : List XmlItem :=
  marshalMetaDoc (mergedMetaTransform (parseMetaDoc doc) hasClientFiles hasServerFiles)

/-! ## Orchestration (internal/bundler/bundler.go, main.go)

File-system and compiler interactions are captured as a trace of
effects; their outcomes come from an environment of oracles. -/

/-- An external interaction performed while bundling a resource. -/
inductive Effect where
  | mkdirAll (dir : GoStr)
  | writeMeta (path : GoStr)
  | copyFile (src dst : GoStr)
  | compileFile (src dst : GoStr)
  | compileMany (srcs : List GoStr) (dst : GoStr)
deriving DecidableEq, Repr

/-- Outcomes of the external collaborators.  `compileFile`/`compileMany`
return `none` for an error return and `some success` for a result with
the given `Success` flag. -/
structure Env where
  cwd : GoStr
  mkdirOk : GoStr → Bool
  writeOk : GoStr → Bool
  copyOk : GoStr → GoStr → Bool
  compileFile : GoStr → GoStr → Option Bool
  compileMany : List GoStr → GoStr → Option Bool

/-- Output path of the rewritten manifest (`copyMetaFile` and
`copyMergedMetaFile` compute it identically): under the base output
directory, prefixed by the resource's position relative to the input
path when an output directory was given and that position is a real
one. -/
def metaOutputPathM (r : Resource) (absInputPath outputFile baseOutputDir : GoStr) :
    Option GoStr :=
  if outputFile ≠ [] then
    match goRel absInputPath r.baseDir with
    | none => none
    | some relativeFromInput =>
      if relativeFromInput = [] ∨ relativeFromInput = str "." then
        some (goJoin baseOutputDir (str "meta.xml"))
      else some (goJoinList [baseOutputDir, relativeFromInput, str "meta.xml"])
  else some (goJoin baseOutputDir (str "meta.xml"))

/-- `copyFileReferences`: copy every non-script reference to its
resolved output path, recording failures without aborting.  Returns the
emitted effects and the error count. -/
def copyFileReferencesM (env : Env) (r : Resource)
    (absInputPath outputFile baseOutputDir : GoStr) :
    List FileReference → List Effect × Nat
  | [] => ([], 0)
  | fileRef :: rest =>
    let prev :=
      copyFileReferencesM env r absInputPath outputFile baseOutputDir rest
    match calculateFileOutputPath r absInputPath outputFile baseOutputDir fileRef with
    | none => (prev.1, prev.2 + 1)
    | some outputPath =>
      if env.mkdirOk (goDir outputPath) then
        if env.copyOk fileRef.fullPath outputPath then
          (Effect.mkdirAll (goDir outputPath)
            :: Effect.copyFile fileRef.fullPath outputPath :: prev.1, prev.2)
        else
          (Effect.mkdirAll (goDir outputPath)
            :: Effect.copyFile fileRef.fullPath outputPath :: prev.1, prev.2 + 1)
      else (Effect.mkdirAll (goDir outputPath) :: prev.1, prev.2 + 1)

/-- The per-script loop of `compileIndividual`: resolve the output path,
create its directory, compile; failures are counted, never aborting. -/
def compileIndividualLoop (env : Env) (r : Resource)
    (absInputPath outputFile baseOutputDir : GoStr) :
    List FileReference → List Effect × Nat
  | [] => ([], 0)
  | fileRef :: rest =>
    let prev :=
      compileIndividualLoop env r absInputPath outputFile baseOutputDir rest
    match calculateOutputPath r absInputPath outputFile baseOutputDir fileRef with
    | none => (prev.1, prev.2 + 1)
    | some outputPath =>
      if env.mkdirOk (goDir outputPath) then
        match env.compileFile fileRef.fullPath outputPath with
        | none =>
          (Effect.mkdirAll (goDir outputPath)
            :: Effect.compileFile fileRef.fullPath outputPath :: prev.1, prev.2 + 1)
        | some ok =>
          (Effect.mkdirAll (goDir outputPath)
            :: Effect.compileFile fileRef.fullPath outputPath :: prev.1,
           if ok then prev.2 else prev.2 + 1)
      else (Effect.mkdirAll (goDir outputPath) :: prev.1, prev.2 + 1)

/-- `compileIndividual`: warn and succeed with no effects when the
resource has no Lua scripts; otherwise create the output root, copy the
rewritten manifest, copy the non-script references, and compile each
script in order, failing overall when any script failed. -/
def compileIndividualM (env : Env) (r : Resource) (inputPath outputFile : GoStr) :
    Option Unit × List Effect :=
  let luaFiles := GetLuaFiles r
  if luaFiles = [] then (some (), [])
  else
    let absInputPath := goAbs env.cwd inputPath
    let baseOutputDir := getBaseOutputDirM env.cwd r outputFile
    if ¬ env.mkdirOk baseOutputDir then
      (none, [Effect.mkdirAll baseOutputDir])
    else
      match metaOutputPathM r absInputPath outputFile baseOutputDir with
      | none => (none, [Effect.mkdirAll baseOutputDir])
      | some metaOut =>
        if ¬ env.mkdirOk (goDir metaOut) then
          (none, [Effect.mkdirAll baseOutputDir, Effect.mkdirAll (goDir metaOut)])
        else if ¬ env.writeOk metaOut then
          (none, [Effect.mkdirAll baseOutputDir, Effect.mkdirAll (goDir metaOut),
            Effect.writeMeta metaOut])
        else
          let copyRes :=
            copyFileReferencesM env r absInputPath outputFile baseOutputDir
              (getNonScriptFiles r)
          let compRes :=
            compileIndividualLoop env r absInputPath outputFile baseOutputDir luaFiles
          ((if compRes.2 > 0 then none else some ()),
           [Effect.mkdirAll baseOutputDir, Effect.mkdirAll (goDir metaOut),
            Effect.writeMeta metaOut] ++ copyRes.1 ++ compRes.1)

/-- Output path of a merged compilation unit (`client.luac` or
`server.luac`), from `compileMerged`: directly under the base output
directory, prefixed by the resource's position relative to the input
path when an output directory was given, `Rel` succeeded and the
position is a real one. -/
def mergedGroupOutputPath (r : Resource)
    (absInputPath outputFile baseOutputDir name : GoStr) : GoStr :=
  if outputFile ≠ [] then
    match goRel absInputPath r.baseDir with
    | some rel =>
      if rel ≠ [] ∧ rel ≠ str "." then goJoinList [baseOutputDir, rel, name]
      else goJoin baseOutputDir name
    | none => goJoin baseOutputDir name
  else goJoin baseOutputDir name

/-- One merged compilation group: create the unit's directory and hand
the whole ordered path list to the compiler in one invocation.  Returns
the effects and the error increment. -/
def mergedGroupCompile (env : Env) (group : List FileReference)
    (outputPath : GoStr) : List Effect × Nat :=
  if ¬ env.mkdirOk (goDir outputPath) then
    ([Effect.mkdirAll (goDir outputPath)], 1)
  else
    let paths := group.map (fun f => f.fullPath)
    match env.compileMany paths outputPath with
    | none =>
      ([Effect.mkdirAll (goDir outputPath), Effect.compileMany paths outputPath], 1)
    | some ok =>
      ([Effect.mkdirAll (goDir outputPath), Effect.compileMany paths outputPath],
       if ok then 0 else 1)

/-- `compileMerged`: group the scripts, warn and succeed with no effects
when both effective sets are empty; otherwise create the output root,
copy the rewritten merged manifest, copy the non-script references, then
compile the client unit (client then shared scripts) and the server unit
(server then shared scripts), each only when non-empty. -/
def compileMergedM (env : Env) (r : Resource) (inputPath outputFile : GoStr) :
    Option Unit × List Effect :=
  let clientFiles := (GetLuaFilesByType r).1
  let serverFiles := (GetLuaFilesByType r).2.1
  let sharedFiles := (GetLuaFilesByType r).2.2
  let allClientFiles := clientFiles ++ sharedFiles
  let allServerFiles := serverFiles ++ sharedFiles
  if allClientFiles = [] ∧ allServerFiles = [] then (some (), [])
  else
      let absInputPath := goAbs env.cwd inputPath
      let baseOutputDir := getBaseOutputDirM env.cwd r outputFile
      if ¬ env.mkdirOk baseOutputDir then
        (none, [Effect.mkdirAll baseOutputDir])
      else
        match metaOutputPathM r absInputPath outputFile baseOutputDir with
        | none => (none, [Effect.mkdirAll baseOutputDir])
        | some metaOut =>
          if ¬ env.mkdirOk (goDir metaOut) then
            (none, [Effect.mkdirAll baseOutputDir, Effect.mkdirAll (goDir metaOut)])
          else if ¬ env.writeOk metaOut then
            (none, [Effect.mkdirAll baseOutputDir, Effect.mkdirAll (goDir metaOut),
              Effect.writeMeta metaOut])
          else
            let copyRes :=
              copyFileReferencesM env r absInputPath outputFile baseOutputDir
                (getNonScriptFiles r)
            let clientRes :=
              if allClientFiles ≠ [] then
                mergedGroupCompile env allClientFiles
                  (mergedGroupOutputPath r absInputPath outputFile baseOutputDir
                    (str "client.luac"))
              else ([], 0)
            let serverRes :=
              if allServerFiles ≠ [] then
                mergedGroupCompile env allServerFiles
                  (mergedGroupOutputPath r absInputPath outputFile baseOutputDir
                    (str "server.luac"))
              else ([], 0)
            ((if clientRes.2 + serverRes.2 > 0 then none else some ()),
             [Effect.mkdirAll baseOutputDir, Effect.mkdirAll (goDir metaOut),
              Effect.writeMeta metaOut] ++ copyRes.1 ++ clientRes.1 ++ serverRes.1)

/-! ## Batch driver (main.go compileResources / main) -/

/-- What became of one discovered manifest in the batch loop. -/
inductive MetaOutcome where
  | resourceError
  | compileError
  | success
deriving DecidableEq, Repr

/-- The per-manifest loop of `compileResources`: a failing `NewResource`
or a failing `Compile` is printed and skipped with `continue`; the next
manifest is always attempted. -/
def compileResourcesLoopM (newRes : GoStr → Option Resource)
    (compileRes : Resource → Option Unit) : List GoStr → List MetaOutcome
  | [] => []
  | m :: rest =>
    match newRes m with
    | none => MetaOutcome.resourceError :: compileResourcesLoopM newRes compileRes rest
    | some r =>
      match compileRes r with
      | none => MetaOutcome.compileError :: compileResourcesLoopM newRes compileRes rest
      | some _ => MetaOutcome.success :: compileResourcesLoopM newRes compileRes rest

/-- `compileResources` after discovery: run the loop over every
discovered manifest and then return `nil` unconditionally. -/
def compileResourcesBatchM (newRes : GoStr → Option Resource)
    (compileRes : Resource → Option Unit) (metaPaths : List GoStr) :
    List MetaOutcome × Option Unit :=
  (compileResourcesLoopM newRes compileRes metaPaths, some ())

/-- `main`: exit code 1 when `runCompiler` returned an error, 0
otherwise. -/
def mainExitCode (runResult : Option Unit) : Nat :=
  match runResult with
  | some _ => 0
  | none => 1

/-! ## Specification-side definitions and concrete inputs -/

/-- Whether a declared script participates in grouping: its source's
lower-cased extension is `.lua`. -/
def isLuaScriptB (sc : Script) : Bool :=
  decide (goToLower (goExt sc.src) = str ".lua")

/-- The client filter of the grouping contract: lower-cased declared
type equal to `client`. -/
def isClientScriptB (sc : Script) : Bool :=
  decide (goToLower sc.type = str "client")

/-- The server filter of the grouping contract: lower-cased declared
type neither `client` nor `shared` (this is the default-to-server
rule: `server`, empty, and every other value land here). -/
def isServerScriptB (sc : Script) : Bool :=
  decide (goToLower sc.type ≠ str "client" ∧ goToLower sc.type ≠ str "shared")

/-- The shared filter of the grouping contract: lower-cased declared
type equal to `shared`. -/
def isSharedScriptB (sc : Script) : Bool :=
  decide (goToLower sc.type = str "shared")

/-- Effective client set non-emptiness, as the claims state it: some
declared `.lua` script has client or shared audience. -/
def effClientB (m : Meta) : Bool :=
  m.scripts.any (fun sc => isLuaScriptB sc && (isClientScriptB sc || isSharedScriptB sc))

/-- Effective server set non-emptiness, as the claims state it: some
declared `.lua` script has server (including defaulted) or shared
audience. -/
def effServerB (m : Meta) : Bool :=
  m.scripts.any (fun sc => isLuaScriptB sc && (isServerScriptB sc || isSharedScriptB sc))

/-- The grouping exactly as claim C6 states it, read literally:
scripts whose source does not end in `.lua` (as written, a
case-sensitive condition) are skipped, and the bucket is chosen by the
declared type being exactly `client`, `server` or `shared`, with any
other value going to the server bucket. -/
def c6LiteralBucketOf (sc : Script) : Bucket :=
  if sc.type = str "client" then Bucket.client
  else if sc.type = str "server" then Bucket.server
  else if sc.type = str "shared" then Bucket.shared
  else Bucket.server

/-- The three buckets of the literal reading of claim C6. -/
def c6LiteralGrouping (r : Resource) :
    List FileReference × List FileReference × List FileReference :=
  ((r.meta.scripts.filter (fun sc =>
      (str ".lua").isSuffixOf sc.src && decide (c6LiteralBucketOf sc = Bucket.client))).map
        (scriptFileRef r.baseDir),
   (r.meta.scripts.filter (fun sc =>
      (str ".lua").isSuffixOf sc.src && decide (c6LiteralBucketOf sc = Bucket.server))).map
        (scriptFileRef r.baseDir),
   (r.meta.scripts.filter (fun sc =>
      (str ".lua").isSuffixOf sc.src && decide (c6LiteralBucketOf sc = Bucket.shared))).map
        (scriptFileRef r.baseDir))

/-- A manifest declaring a single top-level server script. -/
def serverOnlyMeta : Meta :=
  ⟨[⟨str "server.lua", str "server", [], []⟩], [], [], [], []⟩

/-- The resource of the single-manifest scenario: its own manifest file
is the user-supplied input path. -/
def resourceA : Resource :=
  mkResource (str "/cwd") (str "/resources/games/resource_a/meta.xml") serverOnlyMeta

/-- The script reference of `resourceA`'s one script. -/
def serverScriptRef : FileReference :=
  ⟨str "/resources/games/resource_a/server.lua", ReferenceType.script,
    str "server.lua"⟩

/-- A manifest declaring one script with an upper-case `.LUA` source. -/
def upperLuaMeta : Meta :=
  ⟨[⟨str "SERVER.LUA", str "server", [], []⟩], [], [], [], []⟩

/-- A resource at `/r` whose only script is `SERVER.LUA`. -/
def upperLuaResource : Resource :=
  mkResource (str "/cwd") (str "/r/meta.xml") upperLuaMeta

/-- A manifest declaring one `.lua` script with declared type
`Client` (capital C). -/
def capitalClientMeta : Meta :=
  ⟨[⟨str "a.lua", str "Client", [], []⟩], [], [], [], []⟩

/-- A resource at `/r` for `capitalClientMeta`. -/
def capitalClientResource : Resource :=
  mkResource (str "/cwd") (str "/r/meta.xml") capitalClientMeta

/-- A manifest document (children of `<meta>`) holding, besides two
scripts, an `info` element, an XML comment, an `include` element and a
`file` element. -/
def richMetaDoc : List XmlItem :=
  [XmlItem.elem (str "info") [(str "author", str "Test")],
   XmlItem.elem (str "script") [(str "src", str "client.lua"), (str "type", str "client")],
   XmlItem.elem (str "script") [(str "src", str "server.lua"), (str "type", str "server")],
   XmlItem.comment (str " Custom comment "),
   XmlItem.elem (str "include") [(str "resource", str "scoreboard")],
   XmlItem.elem (str "file") [(str "src", str "logo.png")]]

/-- A single-quoted `src` attribute whose value contains a double quote
directly preceded by `.lua`:  `<script src='x.lua"y.lua' />`. -/
def trickySrcContent : GoStr :=
  str "<script src=" ++ [squote] ++ str "x.lua\"y.lua" ++ [squote] ++ str " />"

/-- What the code produces on `trickySrcContent`: the inner `.lua`
(before the embedded double quote) rewritten. -/
def trickySrcCodeOutput : GoStr :=
  str "<script src=" ++ [squote] ++ str "x.luac\"y.lua" ++ [squote] ++ str " />"

/-- What claim C7 requires on `trickySrcContent`: only the final
`.lua` before the closing quote rewritten. -/
def trickySrcClaimOutput : GoStr :=
  str "<script src=" ++ [squote] ++ str "x.lua\"y.luac" ++ [squote] ++ str " />"

/-- An empty manifest. -/
def emptyMeta : Meta := ⟨[], [], [], [], []⟩

/-- A throwaway resource for the batch-driver scenarios. -/
def dummyResource : Resource :=
  mkResource (str "/") (str "/a/meta.xml") emptyMeta

/-- The outcome the batch loop records for one manifest path. -/
def metaOutcomeOf (newRes : GoStr → Option Resource)
    (compileRes : Resource → Option Unit) (m : GoStr) : MetaOutcome :=
  match newRes m with
  | none => MetaOutcome.resourceError
  | some r =>
    match compileRes r with
    | none => MetaOutcome.compileError
    | some _ => MetaOutcome.success

/-- Project a `compileMany` effect to its (inputs, output) pair. -/
def effCompileMany : Effect → Option (List GoStr × GoStr)
  | Effect.compileMany srcs dst => some (srcs, dst)
  | _ => none

/-- An environment in which every external interaction succeeds. -/
def allOkEnv : Env where
  cwd := str "/cwd"
  mkdirOk := fun _ => true
  writeOk := fun _ => true
  copyOk := fun _ _ => true
  compileFile := fun _ _ => some true
  compileMany := fun _ _ => some true

/-- A manifest with no `.lua` script but with a non-lua script, a map
and a file reference. -/
def noLuaMeta : Meta :=
  ⟨[⟨str "readme.txt", [], [], []⟩],
   [⟨str "m.map", []⟩], [⟨str "logo.png", []⟩], [], []⟩

/-- A manifest with one script of each audience, the last one
untyped. -/
def fourScriptMeta : Meta :=
  ⟨[⟨str "a.lua", str "client", [], []⟩,
    ⟨str "b.lua", str "shared", [], []⟩,
    ⟨str "c.lua", str "server", [], []⟩,
    ⟨str "d.lua", [], [], []⟩], [], [], [], []⟩

/-- The resource of `fourScriptMeta`, at `/res`. -/
def fourScriptResource : Resource :=
  mkResource (str "/cwd") (mkAbs [str "res", str "meta.xml"]) fourScriptMeta

/-! ## Sanity checks of the `path/filepath` model -/

example : goClean (str "/out/../server.luac") = str "/server.luac" := by decide
example : goClean (str "a//b/./c/..") = str "a/b" := by decide
example : goClean (str "") = str "." := by decide
example : goClean (str "/..") = str "/" := by decide
example : goJoin (str "/out") (str "games/resource_a") = str "/out/games/resource_a" := by decide
example : goDir (str "server.lua") = str "." := by decide
example : goDir (str "utils/helper.lua") = str "utils" := by decide
example : goDir (str "/a/b") = str "/a" := by decide
example : goBase (str "utils/helper.lua") = str "helper.lua" := by decide
example : goExt (str "SERVER.LUA") = str ".LUA" := by decide
example : goExt (str "a/b.tar.lua") = str ".lua" := by decide
example : goToLower (str ".LUA") = str ".lua" := by decide
example : goRel (str "/resources") (str "/resources/games/resource_a") =
    some (str "games/resource_a") := by decide
example : goRel (str "/resources/games/resource_a/meta.xml")
    (str "/resources/games/resource_a") = some (str "..") := by decide
example : goRel (str "/a/b") (str "/a/b") = some (str ".") := by decide
example : goRel (str "a") (str "/a") = none := by decide

/-! ## List helpers -/

theorem takeWhile_append_all {α : Type} (p : α → Bool) (l m : List α)
    (h : ∀ c ∈ l, p c = true) : (l ++ m).takeWhile p = l ++ m.takeWhile p := by
  induction l with
  | nil => simp
  | cons x xs ih =>
    simp only [List.cons_append, List.takeWhile_cons, h x (by simp), if_true]
    simp [ih (fun c hc => h c (by simp [hc]))]

theorem dropWhile_append_all {α : Type} (p : α → Bool) (l m : List α)
    (h : ∀ c ∈ l, p c = true) : (l ++ m).dropWhile p = m.dropWhile p := by
  induction l with
  | nil => simp
  | cons x xs ih =>
    simp only [List.cons_append, List.dropWhile_cons, h x (by simp), if_true]
    exact ih (fun c hc => h c (by simp [hc]))

theorem takeWhile_all {α : Type} (p : α → Bool) (l : List α)
    (h : ∀ c ∈ l, p c = true) : l.takeWhile p = l := by
  induction l with
  | nil => rfl
  | cons x xs ih =>
    simp only [List.takeWhile_cons, h x (by simp), if_true]
    simp [ih (fun c hc => h c (by simp [hc]))]

theorem dropWhile_all {α : Type} (p : α → Bool) (l : List α)
    (h : ∀ c ∈ l, p c = true) : l.dropWhile p = [] := by
  induction l with
  | nil => rfl
  | cons x xs ih =>
    simp only [List.dropWhile_cons, h x (by simp), if_true]
    exact ih (fun c hc => h c (by simp [hc]))

/-! ## Splitting and joining -/

theorem splitOnSlash_ne_nil (s : GoStr) : splitOnSlash s ≠ [] := by
  induction s with
  | nil => simp [splitOnSlash]
  | cons c rest ih =>
    by_cases h : c = '/'
    · simp [splitOnSlash, h]
    · cases hr : splitOnSlash rest with
      | nil => simp [splitOnSlash, h, hr]
      | cons a b => simp [splitOnSlash, h, hr]

theorem splitOnSlash_cons_slash (r : GoStr) :
    splitOnSlash ('/' :: r) = [] :: splitOnSlash r := by
  simp [splitOnSlash]

theorem splitOnSlash_cons_of_ne (c : Char) (r : GoStr) (h : ¬ c = '/') :
    splitOnSlash (c :: r) =
      match splitOnSlash r with
      | [] => [[c]]
      | x :: xs => (c :: x) :: xs := by
  simp [splitOnSlash, h]

theorem splitOnSlash_no_slash (s : GoStr) (h : '/' ∉ s) : splitOnSlash s = [s] := by
  induction s with
  | nil => rfl
  | cons c rest ih =>
    simp only [List.mem_cons, not_or] at h
    have hc : ¬ c = '/' := fun hc => h.1 hc.symm
    rw [splitOnSlash_cons_of_ne c rest hc, ih h.2]

theorem splitOnSlash_append (a b : GoStr) :
    splitOnSlash (a ++ '/' :: b) = splitOnSlash a ++ splitOnSlash b := by
  induction a with
  | nil => simp [splitOnSlash]
  | cons c r ih =>
    by_cases h : c = '/'
    · subst h
      simp only [List.cons_append, splitOnSlash_cons_slash, ih, List.cons_append]
    · cases hr : splitOnSlash r with
      | nil => exact absurd hr (splitOnSlash_ne_nil r)
      | cons x xs =>
        rw [List.cons_append, splitOnSlash_cons_of_ne c _ h,
          splitOnSlash_cons_of_ne c r h, ih, hr, List.cons_append]
        rfl

theorem joinSegs_cons_cons (s y : GoStr) (t : List GoStr) :
    joinSegs (s :: y :: t) = s ++ '/' :: joinSegs (y :: t) := rfl

theorem joinSegs_append (a b : List GoStr) (ha : a ≠ []) (hb : b ≠ []) :
    joinSegs (a ++ b) = joinSegs a ++ '/' :: joinSegs b := by
  induction a with
  | nil => exact absurd rfl ha
  | cons x xs ih =>
    cases xs with
    | nil =>
      cases b with
      | nil => exact absurd rfl hb
      | cons y ys => simp [joinSegs_cons_cons, joinSegs]
    | cons z zs =>
      have h1 : (x :: z :: zs) ++ b = x :: ((z :: zs) ++ b) := rfl
      have h2 : (z :: zs) ++ b = z :: (zs ++ b) := rfl
      rw [h1, h2, joinSegs_cons_cons, ← h2, ih (by simp) , joinSegs_cons_cons]
      simp

theorem splitOnSlash_joinSegs (l : List GoStr) (h0 : l ≠ [])
    (h : ∀ s ∈ l, '/' ∉ s) : splitOnSlash (joinSegs l) = l := by
  induction l with
  | nil => exact absurd rfl h0
  | cons x xs ih =>
    cases xs with
    | nil => exact splitOnSlash_no_slash x (h x (by simp))
    | cons y ys =>
      rw [joinSegs_cons_cons, splitOnSlash_append,
        splitOnSlash_no_slash x (h x (by simp)),
        ih (by simp) (fun s hs => h s (by simp [List.mem_cons] at hs ⊢; tauto))]
      rfl

/-! ## Cleaning -/

theorem cleanStep_empty (r : Bool) (st : List GoStr) : cleanStep r st [] = st := by
  simp [cleanStep]

theorem cleanStep_dot (r : Bool) (st : List GoStr) : cleanStep r st (str ".") = st := by
  simp [cleanStep]

theorem goodSeg_spec (s : GoStr) (h : goodSeg s = true) :
    s ≠ [] ∧ '/' ∉ s ∧ s ≠ str "." ∧ s ≠ str ".." := by
  simpa [goodSeg] using h

theorem goodSegs_mem (l : List GoStr) (h : goodSegs l = true) :
    ∀ s ∈ l, goodSeg s = true := by
  simpa [goodSegs, List.all_eq_true] using h

theorem goodSegs_append_intro (a b : List GoStr) (ha : goodSegs a = true)
    (hb : goodSegs b = true) : goodSegs (a ++ b) = true := by
  simp only [goodSegs, List.all_append, Bool.and_eq_true]
  exact ⟨ha, hb⟩

theorem cleanStep_good (r : Bool) (st : List GoStr) (s : GoStr)
    (h : goodSeg s = true) : cleanStep r st s = s :: st := by
  obtain ⟨h1, _, h3, h4⟩ := goodSeg_spec s h
  simp [cleanStep, h1, h3, h4]

theorem foldl_cleanStep_good (r : Bool) (l : List GoStr)
    (h : ∀ s ∈ l, goodSeg s = true) :
    ∀ st : List GoStr, l.foldl (cleanStep r) st = l.reverse ++ st := by
  induction l with
  | nil => intro st; rfl
  | cons x xs ih =>
    intro st
    rw [List.foldl_cons, cleanStep_good r st x (h x (by simp)),
      ih (fun s hs => h s (by simp [hs])) (x :: st)]
    simp

theorem cleanSegs_good (r : Bool) (l : List GoStr)
    (h : ∀ s ∈ l, goodSeg s = true) : cleanSegs r l = l := by
  simp [cleanSegs, foldl_cleanStep_good r l h]

theorem cleanSegs_empty_cons (r : Bool) (l : List GoStr) :
    cleanSegs r ([] :: l) = cleanSegs r l := by
  simp [cleanSegs, cleanStep_empty]

/-! ## Shapes of rendered paths -/

theorem joinSegs_head_append (x : GoStr) (xs : List GoStr) :
    ∃ t, joinSegs (x :: xs) = x ++ t := by
  cases xs with
  | nil => exact ⟨[], by simp [joinSegs]⟩
  | cons y ys => exact ⟨'/' :: joinSegs (y :: ys), rfl⟩

theorem joinSegs_ne_nil (l : List GoStr) (hg : goodSegs l = true) (h0 : l ≠ []) :
    joinSegs l ≠ [] := by
  cases l with
  | nil => exact absurd rfl h0
  | cons x xs =>
    obtain ⟨t, ht⟩ := joinSegs_head_append x xs
    have hx := goodSeg_spec x (goodSegs_mem _ hg x (by simp))
    rw [ht]
    intro hc
    rw [List.append_eq_nil] at hc
    exact hx.1 hc.1

theorem goIsAbs_joinSegs (l : List GoStr) (hg : goodSegs l = true) (h0 : l ≠ []) :
    goIsAbs (joinSegs l) = false := by
  cases l with
  | nil => exact absurd rfl h0
  | cons x xs =>
    obtain ⟨t, ht⟩ := joinSegs_head_append x xs
    have hx := goodSeg_spec x (goodSegs_mem _ hg x (by simp))
    cases x with
    | nil => exact absurd rfl hx.1
    | cons c cs =>
      have hc : ¬ c = '/' := by
        intro hc; exact hx.2.1 (by simp [hc])
      rw [ht]
      simp [goIsAbs, hc]

theorem joinSegs_ne_dot (l : List GoStr) (hg : goodSegs l = true) (h0 : l ≠ []) :
    joinSegs l ≠ str "." := by
  cases l with
  | nil => exact absurd rfl h0
  | cons x xs =>
    obtain ⟨t, ht⟩ := joinSegs_head_append x xs
    have hx := goodSeg_spec x (goodSegs_mem _ hg x (by simp))
    cases x with
    | nil => exact absurd rfl hx.1
    | cons c cs =>
      rw [ht]
      intro hc
      have heq : (str "." : GoStr) = ['.'] := rfl
      rw [heq, List.cons_append] at hc
      simp only [List.cons.injEq] at hc
      obtain ⟨hc1, hc2⟩ := hc
      rw [List.append_eq_nil] at hc2
      refine hx.2.2.1 ?_
      rw [heq, hc1, hc2.1]

theorem mkAbs_ne_nil (l : List GoStr) : mkAbs l ≠ [] := by simp [mkAbs]

theorem mkAbs_ne_dot (l : List GoStr) : mkAbs l ≠ str "." := by
  simp only [mkAbs, str]
  intro h
  injection h with h1 _
  exact absurd h1 (by decide)

theorem goIsAbs_mkAbs (l : List GoStr) : goIsAbs (mkAbs l) = true := by
  simp [mkAbs, goIsAbs]

theorem mkAbs_eq_slash_iff (l : List GoStr) (hg : goodSegs l = true) :
    mkAbs l = str "/" ↔ l = [] := by
  constructor
  · intro h
    cases l with
    | nil => rfl
    | cons x xs =>
      simp only [mkAbs, str] at h
      injection h with _ h2
      exact absurd h2 (joinSegs_ne_nil _ hg (by simp))
  · intro h; subst h; rfl

/-! ## `Clean` fixed points and `Join` on well-formed paths -/

theorem goClean_nil : goClean [] = str "." := by decide

theorem goClean_mkAbs (l : List GoStr) (hg : goodSegs l = true) :
    goClean (mkAbs l) = mkAbs l := by
  cases l with
  | nil => decide
  | cons x xs =>
    have hmem : ∀ s ∈ x :: xs, goodSeg s = true := goodSegs_mem _ hg
    have hsl : ∀ s ∈ x :: xs, '/' ∉ s :=
      fun s hs => (goodSeg_spec s (hmem s hs)).2.1
    have h1 : splitOnSlash (mkAbs (x :: xs)) = [] :: (x :: xs) := by
      rw [show mkAbs (x :: xs) = '/' :: joinSegs (x :: xs) from rfl,
        splitOnSlash_cons_slash, splitOnSlash_joinSegs _ (by simp) hsl]
    simp only [goClean, goIsAbs_mkAbs, h1, cleanSegs_empty_cons,
      cleanSegs_good _ _ hmem, if_true]
    rfl

theorem goClean_joinSegs_good (l : List GoStr) (hg : goodSegs l = true)
    (h0 : l ≠ []) : goClean (joinSegs l) = joinSegs l := by
  have hmem := goodSegs_mem _ hg
  have habs : goIsAbs (joinSegs l) = false := goIsAbs_joinSegs l hg h0
  have h1 : splitOnSlash (joinSegs l) = l :=
    splitOnSlash_joinSegs l h0 (fun s hs => (goodSeg_spec s (hmem s hs)).2.1)
  simp only [goClean, habs, h1, cleanSegs_good _ _ hmem, Bool.false_eq_true,
    if_false, if_neg h0]

theorem goJoinList_cons_ne (x : GoStr) (rest : List GoStr) (hx : x ≠ []) :
    goJoinList (x :: rest) = goClean (joinSegs (x :: rest)) := by
  simp only [goJoinList, List.dropWhile_cons, decide_eq_true_eq, hx, if_neg]
  cases hr : (x :: rest) with
  | nil => simp at hr
  | cons a b => simp [hx]

theorem goJoin_mkAbs_joinSegs (a b : List GoStr) (hga : goodSegs a = true)
    (hgb : goodSegs b = true) (hb0 : b ≠ []) :
    goJoin (mkAbs a) (joinSegs b) = mkAbs (a ++ b) := by
  have hx : mkAbs a ≠ [] := mkAbs_ne_nil a
  rw [goJoin, goJoinList_cons_ne _ _ hx]
  have h2 : joinSegs [mkAbs a, joinSegs b] = mkAbs a ++ '/' :: joinSegs b := rfl
  rw [h2]
  cases a with
  | nil =>
    have h3 : mkAbs [] ++ '/' :: joinSegs b = '/' :: '/' :: joinSegs b := rfl
    rw [h3]
    have hsl : ∀ s ∈ b, '/' ∉ s :=
      fun s hs => (goodSeg_spec s (goodSegs_mem _ hgb s hs)).2.1
    have h4 : splitOnSlash ('/' :: '/' :: joinSegs b) = [] :: [] :: b := by
      rw [splitOnSlash_cons_slash, splitOnSlash_cons_slash,
        splitOnSlash_joinSegs b hb0 hsl]
    have habs : goIsAbs ('/' :: '/' :: joinSegs b) = true := rfl
    simp only [goClean, habs, h4, cleanSegs_empty_cons,
      cleanSegs_good _ _ (goodSegs_mem _ hgb), if_true]
    rfl
  | cons x xs =>
    have h3 : mkAbs (x :: xs) ++ '/' :: joinSegs b =
        '/' :: joinSegs ((x :: xs) ++ b) := by
      rw [joinSegs_append _ _ (by simp) hb0]
      rfl
    rw [h3]
    exact goClean_mkAbs _ (goodSegs_append_intro _ _ hga hgb)

theorem goJoin_joinSegs_good (a b : List GoStr) (hga : goodSegs a = true)
    (hgb : goodSegs b = true) (ha0 : a ≠ []) (hb0 : b ≠ []) :
    goJoin (joinSegs a) (joinSegs b) = joinSegs (a ++ b) := by
  rw [goJoin, goJoinList_cons_ne _ _ (joinSegs_ne_nil a hga ha0)]
  have h2 : joinSegs [joinSegs a, joinSegs b] = joinSegs a ++ '/' :: joinSegs b := rfl
  rw [h2, ← joinSegs_append a b ha0 hb0]
  exact goClean_joinSegs_good _ (goodSegs_append_intro _ _ hga hgb) (by simp [ha0])

/-! ## `Rel` on nested absolute paths -/

theorem dropCommon_append_right (l m : List GoStr) : dropCommon l (l ++ m) = ([], m) := by
  induction l with
  | nil => cases m <;> rfl
  | cons x xs ih => simpa [dropCommon] using ih

theorem pathElems_mkAbs_nil : pathElems (mkAbs []) = [[]] := by decide

theorem pathElems_mkAbs (l : List GoStr) (hg : goodSegs l = true) (h0 : l ≠ []) :
    pathElems (mkAbs l) = [] :: l := by
  have h1 : mkAbs l ≠ [] := mkAbs_ne_nil l
  have h2 : mkAbs l ≠ str "/" := by
    rw [Ne, mkAbs_eq_slash_iff l hg]
    exact h0
  have hsl : ∀ s ∈ l, '/' ∉ s :=
    fun s hs => (goodSeg_spec s (goodSegs_mem _ hg s hs)).2.1
  simp only [pathElems, h1, h2, if_neg, if_false]
  rw [show mkAbs l = '/' :: joinSegs l from rfl, splitOnSlash_cons_slash,
    splitOnSlash_joinSegs l h0 hsl]

theorem goRel_mkAbs_nested (a b : List GoStr) (hga : goodSegs a = true)
    (hgb : goodSegs b = true) (hb0 : b ≠ []) :
    goRel (mkAbs a) (mkAbs (a ++ b)) = some (joinSegs b) := by
  have hgab : goodSegs (a ++ b) = true := goodSegs_append_intro _ _ hga hgb
  have hab0 : a ++ b ≠ [] := by
    cases b with
    | nil => exact absurd rfl hb0
    | cons y ys => simp
  have hc1 : goClean (mkAbs a) = mkAbs a := goClean_mkAbs a hga
  have hc2 : goClean (mkAbs (a ++ b)) = mkAbs (a ++ b) := goClean_mkAbs _ hgab
  have hne : mkAbs a ≠ mkAbs (a ++ b) := by
    intro h
    have hj : joinSegs a = joinSegs (a ++ b) := by
      simpa [mkAbs] using h
    cases a with
    | nil =>
      exact joinSegs_ne_nil b hgb hb0 (by simpa [joinSegs] using hj.symm)
    | cons x xs =>
      rw [joinSegs_append _ _ (by simp) hb0] at hj
      have : (joinSegs (x :: xs)).length =
          (joinSegs (x :: xs)).length + 1 + (joinSegs b).length := by
        conv_lhs => rw [hj]
        simp
        omega
      omega
  have hdc : dropCommon (pathElems (mkAbs a)) (pathElems (mkAbs (a ++ b))) = ([], b) := by
    rw [pathElems_mkAbs _ hgab hab0]
    cases a with
    | nil =>
      rw [pathElems_mkAbs_nil]
      simp [dropCommon]
    | cons x xs =>
      rw [pathElems_mkAbs _ hga (by simp)]
      have : dropCommon ([] :: x :: xs) ([] :: ((x :: xs) ++ b)) =
          dropCommon (x :: xs) ((x :: xs) ++ b) := by
        simp [dropCommon]
      rw [this, dropCommon_append_right]
  simp only [goRel, hc1, hc2, if_neg hne, if_neg (mkAbs_ne_dot a),
    goIsAbs_mkAbs, ne_eq, not_true_eq_false, if_neg, hdc]
  simp

/-! ## `Dir`, `Base`, `Ext` on well-formed paths -/

theorem goDir_no_slash (s : GoStr) (h : '/' ∉ s) : goDir s = str "." := by
  have h1 : s.reverse.dropWhile (fun c => decide (c ≠ '/')) = [] := by
    refine dropWhile_all _ _ (fun c hc => ?_)
    rw [List.mem_reverse] at hc
    simp only [decide_eq_true_eq]
    intro he
    exact h (he ▸ hc)
  simp only [goDir, h1, List.reverse_nil]
  exact goClean_nil

theorem goDir_append_seg (y x : GoStr) (hx : '/' ∉ x) :
    goDir (y ++ '/' :: x) = goClean (y ++ ['/']) := by
  have h1 : (y ++ '/' :: x).reverse = x.reverse ++ '/' :: y.reverse := by simp
  have h2 : (x.reverse ++ '/' :: y.reverse).dropWhile (fun c => decide (c ≠ '/')) =
      '/' :: y.reverse := by
    rw [dropWhile_append_all _ _ _ (fun c hc => by
      rw [List.mem_reverse] at hc
      simp only [decide_eq_true_eq]
      intro he
      exact hx (he ▸ hc))]
    rw [List.dropWhile_cons_of_neg (by simp)]
  rw [goDir, h1, h2]
  simp

theorem goClean_joinSegs_slash (l : List GoStr) (hg : goodSegs l = true)
    (h0 : l ≠ []) : goClean (joinSegs l ++ ['/']) = joinSegs l := by
  have hmem := goodSegs_mem _ hg
  have hsl : ∀ s ∈ l, '/' ∉ s := fun s hs => (goodSeg_spec s (hmem s hs)).2.1
  have h1 : splitOnSlash (joinSegs l ++ ['/']) = l ++ [[]] := by
    rw [show (['/'] : GoStr) = '/' :: [] from rfl, splitOnSlash_append,
      splitOnSlash_joinSegs l h0 hsl]
    rfl
  have habs : goIsAbs (joinSegs l ++ ['/']) = false := by
    cases l with
    | nil => exact absurd rfl h0
    | cons x xs =>
      obtain ⟨t, ht⟩ := joinSegs_head_append x xs
      have hxg := goodSeg_spec x (hmem x (by simp))
      cases x with
      | nil => exact absurd rfl hxg.1
      | cons c cs =>
        have hc : ¬ c = '/' := fun he => hxg.2.1 (by simp [he])
        rw [ht]
        simp [goIsAbs, hc]
  have h2 : cleanSegs false (l ++ [[]]) = l := by
    simp only [cleanSegs, List.foldl_append, List.foldl_cons, List.foldl_nil,
      cleanStep_empty]
    rw [foldl_cleanStep_good false l hmem []]
    simp
  simp only [goClean, habs, h1, h2, Bool.false_eq_true, if_false, if_neg h0]

theorem goClean_mkAbs_slash (l : List GoStr) (hg : goodSegs l = true) :
    goClean (mkAbs l ++ ['/']) = mkAbs l := by
  have hmem := goodSegs_mem _ hg
  cases l with
  | nil => decide
  | cons x xs =>
    have hsl : ∀ s ∈ x :: xs, '/' ∉ s :=
      fun s hs => (goodSeg_spec s (hmem s hs)).2.1
    have h1 : splitOnSlash (mkAbs (x :: xs) ++ ['/']) = [] :: ((x :: xs) ++ [[]]) := by
      rw [show mkAbs (x :: xs) ++ ['/'] = '/' :: (joinSegs (x :: xs) ++ ['/']) from rfl,
        splitOnSlash_cons_slash, show (['/'] : GoStr) = '/' :: [] from rfl,
        splitOnSlash_append, splitOnSlash_joinSegs _ (by simp) hsl]
      rfl
    have habs : goIsAbs (mkAbs (x :: xs) ++ ['/']) = true := rfl
    have h2 : cleanSegs true ([] :: ((x :: xs) ++ [[]])) = x :: xs := by
      rw [cleanSegs_empty_cons]
      simp only [cleanSegs, List.foldl_append]
      rw [foldl_cleanStep_good true _ hmem []]
      simp [cleanStep_empty]
    simp only [goClean, habs, h1, h2, if_true]
    rfl

theorem goDir_joinSegs_single (x : GoStr) (hg : goodSeg x = true) :
    goDir (joinSegs [x]) = str "." :=
  goDir_no_slash x (goodSeg_spec x hg).2.1

theorem goDir_joinSegs_append (l : List GoStr) (x : GoStr)
    (hg : goodSegs l = true) (h0 : l ≠ []) (hx : goodSeg x = true) :
    goDir (joinSegs (l ++ [x])) = joinSegs l := by
  rw [joinSegs_append l [x] h0 (by simp),
    show joinSegs [x] = x from rfl,
    goDir_append_seg _ _ (goodSeg_spec x hx).2.1]
  exact goClean_joinSegs_slash l hg h0

theorem goDir_mkAbs_append (l : List GoStr) (x : GoStr)
    (hg : goodSegs l = true) (hx : goodSeg x = true) :
    goDir (mkAbs (l ++ [x])) = mkAbs l := by
  cases l with
  | nil =>
    rw [show mkAbs ([] ++ [x]) = [] ++ '/' :: x from rfl,
      goDir_append_seg _ _ (goodSeg_spec x hx).2.1]
    decide
  | cons y ys =>
    rw [show mkAbs ((y :: ys) ++ [x]) = '/' :: joinSegs ((y :: ys) ++ [x]) from rfl,
      joinSegs_append _ [x] (by simp) (by simp),
      show joinSegs [x] = x from rfl,
      show '/' :: (joinSegs (y :: ys) ++ '/' :: x) =
        ('/' :: joinSegs (y :: ys)) ++ '/' :: x from rfl,
      goDir_append_seg _ _ (goodSeg_spec x hx).2.1]
    exact goClean_mkAbs_slash (y :: ys) hg

theorem goBase_no_slash (x : GoStr) (hx : '/' ∉ x) (h0 : x ≠ []) :
    goBase x = x := by
  have hrev : x.reverse ≠ [] := by simpa using h0
  have hall : ∀ c ∈ x.reverse, c ≠ '/' := by
    intro c hc he
    rw [List.mem_reverse] at hc
    exact hx (he ▸ hc)
  have h1 : x.reverse.dropWhile (fun c => decide (c = '/')) = x.reverse := by
    cases hr : x.reverse with
    | nil => rfl
    | cons c t =>
      rw [List.dropWhile_cons_of_neg]
      simp only [decide_eq_true_eq]
      exact hall c (by rw [hr]; simp)
  have h2 : x.reverse.takeWhile (fun c => decide (c ≠ '/')) = x.reverse := by
    refine takeWhile_all _ _ (fun c hc => ?_)
    simp only [decide_eq_true_eq]
    exact hall c hc
  simp only [goBase]
  rw [if_neg h0, h1, List.reverse_reverse]
  rw [if_neg h0, h2, List.reverse_reverse]

theorem goBase_append_seg (y x : GoStr) (hx : '/' ∉ x) (h0 : x ≠ []) :
    goBase (y ++ '/' :: x) = x := by
  have hne : y ++ '/' :: x ≠ [] := by simp
  have hallx : ∀ c ∈ x.reverse, c ≠ '/' := by
    intro c hc he
    rw [List.mem_reverse] at hc
    exact hx (he ▸ hc)
  have hrev : (y ++ '/' :: x).reverse = x.reverse ++ '/' :: y.reverse := by simp
  have h1 : (x.reverse ++ '/' :: y.reverse).dropWhile (fun c => decide (c = '/')) =
      x.reverse ++ '/' :: y.reverse := by
    cases hr : x.reverse with
    | nil => exact absurd (by simpa using hr) h0
    | cons c t =>
      rw [List.cons_append, List.dropWhile_cons_of_neg]
      simp only [decide_eq_true_eq]
      exact hallx c (by rw [hr]; simp)
  have h2 : (x.reverse ++ '/' :: y.reverse).takeWhile (fun c => decide (c ≠ '/')) =
      x.reverse := by
    rw [takeWhile_append_all _ _ _ (fun c hc => by
      simp only [decide_eq_true_eq]
      exact hallx c hc)]
    rw [List.takeWhile_cons_of_neg (by simp)]
    simp
  simp only [goBase]
  rw [if_neg hne, hrev, h1]
  rw [if_neg (by simp)]
  rw [List.reverse_reverse, h2, List.reverse_reverse]

theorem goBase_joinSegs_append (l : List GoStr) (x : GoStr)
    (hg : goodSegs l = true) (h0 : l ≠ []) (hx : goodSeg x = true) :
    goBase (joinSegs (l ++ [x])) = x := by
  rw [joinSegs_append l [x] h0 (by simp), show joinSegs [x] = x from rfl]
  exact goBase_append_seg _ _ (goodSeg_spec x hx).2.1 (goodSeg_spec x hx).1

theorem goBase_mkAbs_append (l : List GoStr) (x : GoStr) (hx : goodSeg x = true) :
    goBase (mkAbs (l ++ [x])) = x := by
  cases l with
  | nil =>
    rw [show mkAbs ([] ++ [x]) = [] ++ '/' :: x from rfl]
    exact goBase_append_seg _ _ (goodSeg_spec x hx).2.1 (goodSeg_spec x hx).1
  | cons y ys =>
    rw [show mkAbs ((y :: ys) ++ [x]) = '/' :: joinSegs ((y :: ys) ++ [x]) from rfl,
      joinSegs_append _ [x] (by simp) (by simp),
      show joinSegs [x] = x from rfl,
      show '/' :: (joinSegs (y :: ys) ++ '/' :: x) =
        ('/' :: joinSegs (y :: ys)) ++ '/' :: x from rfl]
    exact goBase_append_seg _ _ (goodSeg_spec x hx).2.1 (goodSeg_spec x hx).1

theorem goExtAux_append_no_slash (l z : GoStr) (h : '/' ∉ l) :
    ∀ acc, goExtAux (l ++ '/' :: z) acc = goExtAux l acc := by
  induction l with
  | nil =>
    intro acc
    simp [goExtAux]
  | cons c t ih =>
    intro acc
    simp only [List.mem_cons, not_or] at h
    have hc : ¬ c = '/' := fun hc => h.1 hc.symm
    by_cases hd : c = '.'
    · simp [goExtAux, hc, hd]
    · simp only [List.cons_append, goExtAux, if_neg hc, if_neg hd]
      exact ih h.2 (c :: acc)

theorem goExt_append_seg (y x : GoStr) (hx : '/' ∉ x) :
    goExt (y ++ '/' :: x) = goExt x := by
  simp only [goExt]
  rw [show (y ++ '/' :: x).reverse = x.reverse ++ '/' :: y.reverse by simp]
  exact goExtAux_append_no_slash x.reverse y.reverse (by simpa using hx) []

theorem goExt_joinSegs_append (l : List GoStr) (x : GoStr)
    (hg : goodSegs l = true) (h0 : l ≠ []) (hx : '/' ∉ x) :
    goExt (joinSegs (l ++ [x])) = goExt x := by
  rw [joinSegs_append l [x] h0 (by simp), show joinSegs [x] = x from rfl]
  exact goExt_append_seg _ _ hx

theorem goExt_mkAbs_append (l : List GoStr) (x : GoStr) (hx : '/' ∉ x) :
    goExt (mkAbs (l ++ [x])) = goExt x := by
  cases l with
  | nil =>
    rw [show mkAbs ([] ++ [x]) = [] ++ '/' :: x from rfl]
    exact goExt_append_seg _ _ hx
  | cons y ys =>
    rw [show mkAbs ((y :: ys) ++ [x]) = '/' :: joinSegs ((y :: ys) ++ [x]) from rfl,
      joinSegs_append _ [x] (by simp) (by simp),
      show joinSegs [x] = x from rfl,
      show '/' :: (joinSegs (y :: ys) ++ '/' :: x) =
        ('/' :: joinSegs (y :: ys)) ++ '/' :: x from rfl]
    exact goExt_append_seg _ _ hx

/-! ## Composition laws of `Clean` and `Join` -/

theorem goIsAbs_append_left (x z : GoStr) (h0 : x ≠ []) :
    goIsAbs (x ++ z) = goIsAbs x := by
  cases x with
  | nil => exact absurd rfl h0
  | cons c t => rfl

theorem goClean_dot_middle (x y : GoStr) :
    goClean (x ++ '/' :: '.' :: '/' :: y) = goClean (x ++ '/' :: y) := by
  have hroot : goIsAbs (x ++ '/' :: '.' :: '/' :: y) = goIsAbs (x ++ '/' :: y) := by
    cases x with
    | nil => rfl
    | cons c t => rfl
  have h1 : splitOnSlash (x ++ '/' :: '.' :: '/' :: y) =
      splitOnSlash x ++ str "." :: splitOnSlash y := by
    rw [show ('/' :: '.' :: '/' :: y : GoStr) = '/' :: (str "." ++ '/' :: y) from rfl,
      splitOnSlash_append, splitOnSlash_append]
    rfl
  have h2 : splitOnSlash (x ++ '/' :: y) = splitOnSlash x ++ splitOnSlash y :=
    splitOnSlash_append x y
  have h3 : ∀ r : Bool, cleanSegs r (splitOnSlash x ++ str "." :: splitOnSlash y) =
      cleanSegs r (splitOnSlash x ++ splitOnSlash y) := by
    intro r
    simp [cleanSegs, List.foldl_append, List.foldl_cons, cleanStep_dot]
  simp only [goClean, hroot, h1, h2, h3]

theorem goJoin_eq_clean (b n : GoStr) (hb : b ≠ []) :
    goJoin b n = goClean (b ++ '/' :: n) := by
  rw [goJoin, goJoinList_cons_ne _ _ hb]
  rfl

theorem goJoinList3_eq_clean (o re n : GoStr) (ho : o ≠ []) :
    goJoinList [o, re, n] = goClean (o ++ '/' :: re ++ '/' :: n) := by
  rw [goJoinList_cons_ne _ _ ho]
  congr 1
  simp [joinSegs_cons_cons, joinSegs]

theorem goJoinList4_eq_clean (o re d n : GoStr) (ho : o ≠ []) :
    goJoinList [o, re, d, n] = goClean (o ++ '/' :: re ++ '/' :: d ++ '/' :: n) := by
  rw [goJoinList_cons_ne _ _ ho]
  congr 1
  simp [joinSegs_cons_cons, joinSegs]

theorem goJoinList_skip_dot3 (b n : GoStr) (hb : b ≠ []) :
    goJoinList [b, str ".", n] = goJoin b n := by
  rw [goJoinList3_eq_clean _ _ _ hb, goJoin_eq_clean _ _ hb]
  rw [show b ++ '/' :: str "." ++ '/' :: n = b ++ '/' :: '.' :: '/' :: n by simp [str]]
  exact goClean_dot_middle b n

theorem goJoinList_skip_dot4 (o re n : GoStr) (ho : o ≠ []) :
    goJoinList [o, re, str ".", n] = goJoinList [o, re, n] := by
  rw [goJoinList4_eq_clean _ _ _ _ ho, goJoinList3_eq_clean _ _ _ ho]
  rw [show o ++ '/' :: re ++ '/' :: str "." ++ '/' :: n =
    (o ++ '/' :: re) ++ '/' :: '.' :: '/' :: n by simp [str]]
  rw [show o ++ '/' :: re ++ '/' :: n = (o ++ '/' :: re) ++ '/' :: n by simp]
  exact goClean_dot_middle (o ++ '/' :: re) n

theorem goJoinList_flatten_mid (o : GoStr) (e i : List GoStr) (n : GoStr)
    (ho : o ≠ []) (he : e ≠ []) (hi : i ≠ []) :
    goJoinList [o, joinSegs (e ++ i), n] =
      goJoinList [o, joinSegs e, joinSegs i, n] := by
  rw [goJoinList3_eq_clean _ _ _ ho, goJoinList4_eq_clean _ _ _ _ ho,
    joinSegs_append e i he hi]
  simp

/-! ## Claim C1 -/

/-- C1: the claim says that in single-resource mode (the input path is
the resource's own manifest file) with an output root set,
`relFromInput` collapses to empty/`.` and a top-level script lands at
`join(outputRoot, outputFileName)` — e.g. `/out/server.luac`.  The code
disagrees: `filepath.Rel` of the manifest *file* path against the
resource's base directory is `..`, so the output is computed as
`join("/out", "..", "server.luac") = "/server.luac")`, escaping the
output root.  This theorem evaluates the code at that failing input. -/
theorem c1_single_manifest_escapes_output_root :
    goRel (str "/resources/games/resource_a/meta.xml") resourceA.baseDir =
      some (str "..") ∧
    calculateOutputPath resourceA
      (goAbs (str "/cwd") (str "/resources/games/resource_a/meta.xml"))
      (str "/out") (str "/out") serverScriptRef = some (str "/server.luac") ∧
    some (str "/server.luac") ≠ some (str "/out/server.luac") := by
  refine ⟨by decide, by decide, by decide⟩

/-! ## Claim C3 -/

/-- C3: for a resource whose base directory sits strictly below the
user-supplied input directory (batch mode) with an output root set, the
output path of each script is
`join(outputRoot, relative(inputRoot, resource.baseDir),
dirOf(relativePath), outputFileName)`.  Quantification: the input root
is `mkAbs root`, the resource's base directory sits strictly below it at
`mkAbs (root ++ extra)` with `extra` non-empty, the output root is the
absolute `mkAbs osegs`, and the script's declared relative path is built
from well-formed segments `ps`. -/
theorem c3_batch_mode_output_path
    (root extra osegs ps : List GoStr)
    (hgr : goodSegs root = true) (hge : goodSegs extra = true)
    (hgo : goodSegs osegs = true) (hgp : goodSegs ps = true)
    (he0 : extra ≠ []) (hp0 : ps ≠ [])
    (r : Resource) (hbase : r.baseDir = mkAbs (root ++ extra))
    (ref : FileReference) (hrel : ref.relativePath = joinSegs ps)
    (cwd : GoStr) :
    calculateOutputPath r (mkAbs root) (mkAbs osegs)
      (getBaseOutputDirM cwd r (mkAbs osegs)) ref =
      some (goJoinList [mkAbs osegs,
        (goRel (mkAbs root) r.baseDir).getD [],
        goDir ref.relativePath,
        generateOutputFilename ref.relativePath]) := by
  have hbo : getBaseOutputDirM cwd r (mkAbs osegs) = mkAbs osegs := by
    simp [getBaseOutputDirM, mkAbs_ne_nil, goIsAbs_mkAbs]
  have hrelv : goRel (mkAbs root) r.baseDir = some (joinSegs extra) := by
    rw [hbase]
    exact goRel_mkAbs_nested root extra hgr hge he0
  have hjne : joinSegs extra ≠ [] := joinSegs_ne_nil extra hge he0
  have hjnd : joinSegs extra ≠ str "." := joinSegs_ne_dot extra hge he0
  rw [hbo]
  simp only [calculateOutputPath, ne_eq, mkAbs_ne_nil, not_false_eq_true, if_true,
    calculateOutputPathWithCustomDir, hrelv, hrel]
  rcases ps.eq_nil_or_concat with hnil | ⟨init, x, hsplit⟩
  · exact absurd hnil hp0
  · subst hsplit
    simp only [List.concat_eq_append] at hgp hp0 ⊢
    have hgi : goodSegs init = true ∧ goodSeg x = true := by
      have := hgp
      simp only [goodSegs, List.all_append, List.all_cons, List.all_nil,
        Bool.and_eq_true, Bool.and_true] at this
      exact ⟨this.1, this.2⟩
    cases hinit : init with
    | nil =>
      have hdir : goDir (joinSegs ([] ++ [x])) = str "." :=
        goDir_joinSegs_single x hgi.2
      rw [hdir]
      simp only [buildFullRelativeDir, ne_eq, hjne, not_false_eq_true, hjnd,
        and_self, if_true, if_pos rfl]
      rw [if_neg (by simp [hjnd, hjne])]
      simp only [Option.getD_some]
      rw [goJoinList_skip_dot4 _ _ _ (mkAbs_ne_nil osegs)]
    | cons i0 irest =>
      rw [← hinit]
      have hi0 : init ≠ [] := by rw [hinit]; simp
      have hdir : goDir (joinSegs (init ++ [x])) = joinSegs init :=
        goDir_joinSegs_append init x hgi.1 hi0 hgi.2
      rw [hdir]
      have hjni : joinSegs init ≠ str "." := joinSegs_ne_dot init hgi.1 hi0
      have hfull : buildFullRelativeDir (joinSegs extra) (joinSegs init) =
          joinSegs (extra ++ init) := by
        simp only [buildFullRelativeDir, ne_eq, hjne, not_false_eq_true, hjnd,
          and_self, if_true, if_neg hjni]
        exact goJoin_joinSegs_good extra init hge hgi.1 he0 hi0
      rw [hfull]
      have hgei : goodSegs (extra ++ init) = true :=
        goodSegs_append_intro _ _ hge hgi.1
      have hei0 : extra ++ init ≠ [] := by
        cases extra with
        | nil => exact absurd rfl he0
        | cons a b => simp
      rw [if_neg (by
        simp only [not_or]
        exact ⟨joinSegs_ne_dot _ hgei hei0, joinSegs_ne_nil _ hgei hei0⟩)]
      rw [goJoinList_flatten_mid _ _ _ _ (mkAbs_ne_nil osegs) he0 hi0]
      simp [Option.getD]

/-- Witness for C3 at the spec's own example: input root `/resources`,
resource at `/resources/games/resource_a`, output root `/out`, script
`server.lua` — output `/out/games/resource_a/server.luac`. -/
theorem c3_batch_mode_output_path_witness :
    goodSegs [str "resources"] = true ∧
    goodSegs [str "games", str "resource_a"] = true ∧
    goodSegs [str "out"] = true ∧
    goodSegs [str "server.lua"] = true ∧
    resourceA.baseDir = mkAbs ([str "resources"] ++ [str "games", str "resource_a"]) ∧
    calculateOutputPath resourceA (mkAbs [str "resources"]) (mkAbs [str "out"])
      (getBaseOutputDirM (str "/cwd") resourceA (mkAbs [str "out"])) serverScriptRef =
      some (goJoinList [mkAbs [str "out"],
        (goRel (mkAbs [str "resources"]) resourceA.baseDir).getD [],
        goDir serverScriptRef.relativePath,
        generateOutputFilename serverScriptRef.relativePath]) ∧
    calculateOutputPath resourceA (mkAbs [str "resources"]) (mkAbs [str "out"])
      (getBaseOutputDirM (str "/cwd") resourceA (mkAbs [str "out"])) serverScriptRef =
      some (str "/out/games/resource_a/server.luac") := by
  refine ⟨by decide, by decide, by decide, by decide, by decide, ?_, by decide⟩
  exact c3_batch_mode_output_path [str "resources"] [str "games", str "resource_a"]
    [str "out"] [str "server.lua"] (by decide) (by decide) (by decide) (by decide)
    (by decide) (by decide) resourceA (by decide) serverScriptRef (by decide)
    (str "/cwd")

/-! ## Claim C2 -/

/-- C2: the claim says every manifest element the subsystem does not own
(info, includes, comments, unrelated attributes, ...) survives rewriting
byte-for-byte in both modes.  In merged mode the code re-marshals the
parsed `Meta` struct, which only carries the five file-referencing
element kinds: on a manifest holding an `info` element, a comment and an
`include` element, the rewritten document contains none of them.  This
theorem evaluates the merged rewrite at that failing input. -/
theorem c2_merged_rewrite_drops_unowned_elements :
    copyAndModifyMergedMetaFileDoc richMetaDoc true true =
      [XmlItem.elem (str "script")
        [(str "src", str "client.luac"), (str "type", str "client"),
         (str "cache", str "true"), (str "validate", [])],
       XmlItem.elem (str "script")
        [(str "src", str "server.luac"), (str "type", str "server"),
         (str "cache", str "true"), (str "validate", [])],
       XmlItem.elem (str "file")
        [(str "src", str "logo.png"), (str "download", [])]] ∧
    XmlItem.comment (str " Custom comment ") ∈ richMetaDoc ∧
    XmlItem.comment (str " Custom comment ")
      ∉ copyAndModifyMergedMetaFileDoc richMetaDoc true true ∧
    XmlItem.elem (str "include") [(str "resource", str "scoreboard")] ∈ richMetaDoc ∧
    XmlItem.elem (str "include") [(str "resource", str "scoreboard")]
      ∉ copyAndModifyMergedMetaFileDoc richMetaDoc true true := by
  refine ⟨by decide, by decide, by decide, by decide, by decide⟩

/-! ## Claim C4 -/

/-- C4, as amended: with no output root set (Case A), a script's output
path equals `join(resource.baseDir, dirOf(relativePath), outputFileName)`
where `outputFileName` replaces a trailing `.lua` — matched
case-sensitively, i.e. only when the base filename's extension is
exactly `.lua` — with `.luac`; and a non-script reference is emitted
under its unchanged relative path, so its base filename is unchanged. -/
theorem c4_case_a_output_paths
    (cwd absInputPath : GoStr) (bsegs ps qs : List GoStr)
    (hgb : goodSegs bsegs = true) (hgp : goodSegs ps = true) (hp0 : ps ≠ [])
    (hgq : goodSegs qs = true) (hq0 : qs ≠ [])
    (r : Resource) (hbase : r.baseDir = mkAbs bsegs)
    (sref fref : FileReference)
    (hsrel : sref.relativePath = joinSegs ps)
    (hfrel : fref.relativePath = joinSegs qs) :
    getBaseOutputDirM cwd r [] = r.baseDir ∧
    calculateOutputPath r absInputPath [] (getBaseOutputDirM cwd r []) sref =
      some (goJoinList [r.baseDir, goDir sref.relativePath,
        generateOutputFilename sref.relativePath]) ∧
    calculateFileOutputPath r absInputPath [] (getBaseOutputDirM cwd r []) fref =
      some (goJoin r.baseDir fref.relativePath) ∧
    goBase (goJoin r.baseDir fref.relativePath) = goBase fref.relativePath := by
  have h1 : getBaseOutputDirM cwd r [] = r.baseDir := by
    simp [getBaseOutputDirM]
  refine ⟨h1, ?_, ?_, ?_⟩
  · rw [h1, hbase]
    simp only [calculateOutputPath, ne_eq, not_true_eq_false, if_false,
      calculateOutputPathSameStructure, hsrel, Option.some.injEq]
    rcases ps.eq_nil_or_concat with hnil | ⟨init, x, hsplit⟩
    · exact absurd hnil hp0
    · subst hsplit
      simp only [List.concat_eq_append] at hgp hp0 ⊢
      have hgi : goodSegs init = true ∧ goodSeg x = true := by
        have := hgp
        simp only [goodSegs, List.all_append, List.all_cons, List.all_nil,
          Bool.and_eq_true, Bool.and_true] at this
        exact ⟨this.1, this.2⟩
      cases hinit : init with
      | nil =>
        have hdir : goDir (joinSegs ([] ++ [x])) = str "." :=
          goDir_joinSegs_single x hgi.2
        rw [hdir, if_pos rfl, goJoinList_skip_dot3 _ _ (mkAbs_ne_nil bsegs)]
      | cons i0 irest =>
        rw [← hinit]
        have hi0 : init ≠ [] := by rw [hinit]; simp
        have hdir : goDir (joinSegs (init ++ [x])) = joinSegs init :=
          goDir_joinSegs_append init x hgi.1 hi0 hgi.2
        rw [hdir, if_neg (joinSegs_ne_dot init hgi.1 hi0)]
  · rw [h1]
    simp [calculateFileOutputPath]
  · rw [hbase, hfrel]
    rcases qs.eq_nil_or_concat with hnil | ⟨init, x, hsplit⟩
    · exact absurd hnil hq0
    · subst hsplit
      simp only [List.concat_eq_append] at hgq hq0 ⊢
      have hgi : goodSegs init = true ∧ goodSeg x = true := by
        have := hgq
        simp only [goodSegs, List.all_append, List.all_cons, List.all_nil,
          Bool.and_eq_true, Bool.and_true] at this
        exact ⟨this.1, this.2⟩
      rw [goJoin_mkAbs_joinSegs bsegs _ hgb hgq (by simp)]
      rw [show bsegs ++ (init ++ [x]) = (bsegs ++ init) ++ [x] by simp]
      rw [goBase_mkAbs_append _ _ hgi.2]
      cases hinit : init with
      | nil =>
        rw [show joinSegs ([] ++ [x]) = x from rfl]
        exact (goBase_no_slash x (goodSeg_spec x hgi.2).2.1
          (goodSeg_spec x hgi.2).1).symm
      | cons i0 irest =>
        rw [← hinit]
        have hi0 : init ≠ [] := by rw [hinit]; simp
        exact (goBase_joinSegs_append init x hgi.1 hi0 hgi.2).symm

/-- Witness for C4 as amended: resource at `/r`, script `sub/a.lua` goes
to `/r/sub/a.luac`, non-script `logo.png` to `/r/logo.png` with its
filename unchanged. -/
theorem c4_case_a_output_paths_witness :
    goodSegs [str "r"] = true ∧
    goodSegs [str "sub", str "a.lua"] = true ∧
    goodSegs [str "logo.png"] = true ∧
    upperLuaResource.baseDir = mkAbs [str "r"] ∧
    calculateOutputPath upperLuaResource (str "/r/meta.xml") []
      (getBaseOutputDirM (str "/cwd") upperLuaResource [])
      ⟨str "/r/sub/a.lua", ReferenceType.script, str "sub/a.lua"⟩ =
      some (goJoinList [upperLuaResource.baseDir, goDir (str "sub/a.lua"),
        generateOutputFilename (str "sub/a.lua")]) ∧
    calculateOutputPath upperLuaResource (str "/r/meta.xml") []
      (getBaseOutputDirM (str "/cwd") upperLuaResource [])
      ⟨str "/r/sub/a.lua", ReferenceType.script, str "sub/a.lua"⟩ =
      some (str "/r/sub/a.luac") ∧
    calculateFileOutputPath upperLuaResource (str "/r/meta.xml") []
      (getBaseOutputDirM (str "/cwd") upperLuaResource [])
      ⟨str "/r/logo.png", ReferenceType.file, str "logo.png"⟩ =
      some (str "/r/logo.png") ∧
    goBase (str "/r/logo.png") = goBase (str "logo.png") := by
  refine ⟨by decide, by decide, by decide, by decide, ?_, by decide, by decide,
    by decide⟩
  exact (c4_case_a_output_paths (str "/cwd") (str "/r/meta.xml") [str "r"]
    [str "sub", str "a.lua"] [str "logo.png"] (by decide) (by decide) (by decide)
    (by decide) (by decide) upperLuaResource (by decide)
    ⟨str "/r/sub/a.lua", ReferenceType.script, str "sub/a.lua"⟩
    ⟨str "/r/logo.png", ReferenceType.file, str "logo.png"⟩
    (by decide) (by decide)).2.1

/-! ## Claim C4, counterexample -/

/-- C4's counterexample: the claim says the `.lua` → `.luac` replacement
matches the trailing `.lua` case-insensitively.  `generateOutputFilename`
compares `filepath.Ext` against `".lua"` case-sensitively, so the script
`SERVER.LUA` — which `GetLuaFiles` does select, case-insensitively — is
emitted in Case A under its unchanged name `SERVER.LUA`, not
`SERVER.luac`. -/
theorem c4_upper_case_lua_not_replaced :
    GetLuaFiles upperLuaResource =
      [⟨str "/r/SERVER.LUA", ReferenceType.script, str "SERVER.LUA"⟩] ∧
    calculateOutputPath upperLuaResource (str "/r/meta.xml") []
      (getBaseOutputDirM (str "/cwd") upperLuaResource [])
      ⟨str "/r/SERVER.LUA", ReferenceType.script, str "SERVER.LUA"⟩ =
      some (str "/r/SERVER.LUA") ∧
    some (str "/r/SERVER.LUA") ≠ some (str "/r/SERVER.luac") := by
  refine ⟨by decide, by decide, by decide⟩

/-! ## Script grouping as three document-order filters -/

theorem getLuaFilesByTypeAux_eq_filters (baseDir : GoStr) (scs : List Script) :
    getLuaFilesByTypeAux baseDir scs =
      ((scs.filter (fun sc => isLuaScriptB sc && isClientScriptB sc)).map
        (scriptFileRef baseDir),
       (scs.filter (fun sc => isLuaScriptB sc && isServerScriptB sc)).map
        (scriptFileRef baseDir),
       (scs.filter (fun sc => isLuaScriptB sc && isSharedScriptB sc)).map
        (scriptFileRef baseDir)) := by
  induction scs with
  | nil => rfl
  | cons sc rest ih =>
    by_cases hlua : goToLower (goExt sc.src) = str ".lua"
    · have e1 : isLuaScriptB sc = true := by
        simp only [isLuaScriptB, decide_eq_true_eq]
        exact hlua
      by_cases h1 : goToLower sc.type = str "client"
      · have eb : bucketOf sc = Bucket.client := by
          simp only [bucketOf]
          rw [h1]
          decide
        have e2 : isClientScriptB sc = true := by
          simp only [isClientScriptB, decide_eq_true_eq]
          exact h1
        have e3 : isServerScriptB sc = false := by
          simp only [isServerScriptB, decide_eq_false_iff_not, not_and]
          intro hne
          exact absurd h1 hne
        have e4 : isSharedScriptB sc = false := by
          simp only [isSharedScriptB, decide_eq_false_iff_not]
          rw [h1]
          decide
        simp [getLuaFilesByTypeAux, ih, eb, List.filter_cons, e1, e2, e3, e4, hlua]
      · by_cases h2 : goToLower sc.type = str "server"
        · have eb : bucketOf sc = Bucket.server := by
            simp only [bucketOf]
            rw [h2]
            decide
          have e2 : isClientScriptB sc = false := by
            simp only [isClientScriptB, decide_eq_false_iff_not]
            exact h1
          have e3 : isServerScriptB sc = true := by
            simp only [isServerScriptB, decide_eq_true_eq]
            refine ⟨h1, ?_⟩
            rw [h2]
            decide
          have e4 : isSharedScriptB sc = false := by
            simp only [isSharedScriptB, decide_eq_false_iff_not]
            rw [h2]
            decide
          simp [getLuaFilesByTypeAux, ih, eb, List.filter_cons, e1, e2, e3, e4, hlua]
        · by_cases h3 : goToLower sc.type = str "shared"
          · have eb : bucketOf sc = Bucket.shared := by
              simp only [bucketOf]
              rw [h3]
              decide
            have e2 : isClientScriptB sc = false := by
              simp only [isClientScriptB, decide_eq_false_iff_not]
              exact h1
            have e3 : isServerScriptB sc = false := by
              simp only [isServerScriptB, decide_eq_false_iff_not, not_and]
              intro _
              simp [h3]
            have e4 : isSharedScriptB sc = true := by
              simp only [isSharedScriptB, decide_eq_true_eq]
              exact h3
            simp [getLuaFilesByTypeAux, ih, eb, List.filter_cons, e1, e2, e3, e4, hlua]
          · have eb : bucketOf sc = Bucket.server := by
              simp only [bucketOf]
              rw [if_neg h1, if_neg h2, if_neg h3]
            have e2 : isClientScriptB sc = false := by
              simp only [isClientScriptB, decide_eq_false_iff_not]
              exact h1
            have e3 : isServerScriptB sc = true := by
              simp only [isServerScriptB, decide_eq_true_eq]
              exact ⟨h1, h3⟩
            have e4 : isSharedScriptB sc = false := by
              simp only [isSharedScriptB, decide_eq_false_iff_not]
              exact h3
            simp [getLuaFilesByTypeAux, ih, eb, List.filter_cons, e1, e2, e3, e4, hlua]
    · have e1 : isLuaScriptB sc = false := by
        simp only [isLuaScriptB, decide_eq_false_iff_not]
        exact hlua
      simp [getLuaFilesByTypeAux, ih, List.filter_cons, e1, hlua]

theorem filter_append_pos_length_eq_any {α β : Type} (l : List α) (f : α → β)
    (p q : α → Bool) :
    decide (0 < ((l.filter p).map f ++ (l.filter q).map f).length) =
      l.any (fun x => p x || q x) := by
  induction l with
  | nil => rfl
  | cons x xs ih =>
    by_cases hp : p x = true
    · simp [List.filter_cons, hp, List.any_cons]
    · by_cases hq : q x = true
      · simp [List.filter_cons, hp, hq, List.any_cons]
      · simp only [List.filter_cons, hp, hq, Bool.false_eq_true, if_false,
          List.any_cons, Bool.or_false]
        rw [← ih]
        simp [hp, hq]

/-! ## Claim C5 -/

/-- C5: merged-mode rewriting clears every script element regardless of
audience and then inserts the client element
(`src=client.luac, type=client, cache=true`) exactly when the effective
client set (client ∪ shared `.lua` scripts) is non-empty, followed by
the server element (`src=server.luac, type=server, cache=true`) exactly
when the effective server set (server-or-defaulted ∪ shared) is
non-empty, in that fixed order.  The booleans are the ones
`compileMerged` passes: `len(clientFiles ++ sharedFiles) > 0` and
`len(serverFiles ++ sharedFiles) > 0` over the grouped scripts. -/
theorem c5_merged_rewrite_script_elements (r : Resource) :
    (mergedMetaTransform r.meta
      (decide (0 < ((GetLuaFilesByType r).1 ++ (GetLuaFilesByType r).2.2).length))
      (decide (0 < ((GetLuaFilesByType r).2.1 ++ (GetLuaFilesByType r).2.2).length))).scripts =
      (if effClientB r.meta then [⟨str "client.luac", str "client", str "true", []⟩]
        else [])
      ++ (if effServerB r.meta then [⟨str "server.luac", str "server", str "true", []⟩]
        else []) := by
  have hkey := getLuaFilesByTypeAux_eq_filters r.baseDir r.meta.scripts
  have hgl : GetLuaFilesByType r = getLuaFilesByTypeAux r.baseDir r.meta.scripts := rfl
  rw [hgl, hkey]
  have hb1 : decide (0 < (((r.meta.scripts.filter
        (fun sc => isLuaScriptB sc && isClientScriptB sc)).map (scriptFileRef r.baseDir))
      ++ ((r.meta.scripts.filter
        (fun sc => isLuaScriptB sc && isSharedScriptB sc)).map (scriptFileRef r.baseDir))).length) =
      effClientB r.meta := by
    rw [filter_append_pos_length_eq_any]
    simp only [effClientB]
    congr 1
    funext sc
    cases isLuaScriptB sc <;> cases isClientScriptB sc <;> cases isSharedScriptB sc <;> rfl
  have hb2 : decide (0 < (((r.meta.scripts.filter
        (fun sc => isLuaScriptB sc && isServerScriptB sc)).map (scriptFileRef r.baseDir))
      ++ ((r.meta.scripts.filter
        (fun sc => isLuaScriptB sc && isSharedScriptB sc)).map (scriptFileRef r.baseDir))).length) =
      effServerB r.meta := by
    rw [filter_append_pos_length_eq_any]
    simp only [effServerB]
    congr 1
    funext sc
    cases isLuaScriptB sc <;> cases isServerScriptB sc <;> cases isSharedScriptB sc <;> rfl
  rw [hb1, hb2]
  cases hc : effClientB r.meta <;> cases hs : effServerB r.meta <;>
    simp [mergedMetaTransform]

/-! ## Claim C6, amended -/

/-- C6, as amended: `GetLuaFilesByType` is a single pass over the
declared scripts that skips every script whose source's lower-cased
extension is not `.lua` and distributes the rest, in document order,
into the client bucket when the lower-cased declared type is `client`,
the shared bucket when it is `shared`, and the server bucket for every
other value including `server` and the empty string (default-to-server
policy): it equals the three corresponding order-preserving filters. -/
theorem c6_grouping_eq_case_insensitive_filters (r : Resource) :
    GetLuaFilesByType r =
      ((r.meta.scripts.filter (fun sc => isLuaScriptB sc && isClientScriptB sc)).map
        (scriptFileRef r.baseDir),
       (r.meta.scripts.filter (fun sc => isLuaScriptB sc && isServerScriptB sc)).map
        (scriptFileRef r.baseDir),
       (r.meta.scripts.filter (fun sc => isLuaScriptB sc && isSharedScriptB sc)).map
        (scriptFileRef r.baseDir)) :=
  getLuaFilesByTypeAux_eq_filters r.baseDir r.meta.scripts

/-! ## Claim C6, counterexample -/

/-- C6's counterexample: the claim, read literally, places a `.lua`
script in the client bucket only when its declared type is the exact
string `client`, every other value (so also `Client`) defaulting to the
server bucket.  The code lower-cases the type first: a script of
declared type `Client` lands in the client bucket, not the server
bucket. -/
theorem c6_capital_client_goes_to_client_bucket :
    GetLuaFilesByType capitalClientResource =
      ([⟨str "/r/a.lua", ReferenceType.script, str "a.lua"⟩], [], []) ∧
    c6LiteralGrouping capitalClientResource =
      ([], [⟨str "/r/a.lua", ReferenceType.script, str "a.lua"⟩], []) ∧
    GetLuaFilesByType capitalClientResource ≠
      c6LiteralGrouping capitalClientResource := by
  refine ⟨by decide, by decide, by decide⟩

/-! ## Claim C9 -/

theorem filter_eq_nil_of_all {α : Type} (l : List α) (p : α → Bool)
    (h : ∀ x ∈ l, p x = false) : l.filter p = [] := by
  induction l with
  | nil => rfl
  | cons x xs ih =>
    simp [List.filter_cons, h x (by simp), ih (fun y hy => h y (by simp [hy]))]

theorem filter_map_eq_nil {α β : Type} (l : List α) (f : α → β) (p : β → Bool)
    (h : ∀ x ∈ l, p (f x) = false) : (l.map f).filter p = [] := by
  induction l with
  | nil => rfl
  | cons x xs ih =>
    simp [List.filter_cons, h x (by simp), ih (fun y hy => h y (by simp [hy]))]

/-- C9: when no declared script has a `.lua`-suffixed source
(case-insensitively, matching the code's selection), both compilation
modes return success immediately after the warning: no manifest is
written, no non-script reference is copied, no directory is created and
no compiler call happens — the effect trace is empty — even when the
manifest declares maps, configs, assets or html files. -/
theorem c9_no_lua_scripts_no_output
    (env : Env) (inputPath outputFile : GoStr)
    (bsegs : List GoStr) (mx : GoStr) (meta : Meta)
    (hgb : goodSegs bsegs = true) (hmx : goodSeg mx = true)
    (hscripts : ∀ sc ∈ meta.scripts,
      goToLower (goExt sc.src) ≠ str ".lua" ∧
      ∃ qs, sc.src = joinSegs qs ∧ goodSegs qs = true ∧ qs ≠ []) :
    compileIndividualM env (mkResource env.cwd (mkAbs (bsegs ++ [mx])) meta)
      inputPath outputFile = (some (), []) ∧
    compileMergedM env (mkResource env.cwd (mkAbs (bsegs ++ [mx])) meta)
      inputPath outputFile = (some (), []) := by
  have hgbm : goodSegs (bsegs ++ [mx]) = true := by
    refine goodSegs_append_intro _ _ hgb ?_
    simp [goodSegs, hmx]
  have habs : goAbs env.cwd (mkAbs (bsegs ++ [mx])) = mkAbs (bsegs ++ [mx]) := by
    simp [goAbs, goIsAbs_mkAbs, goClean_mkAbs _ hgbm]
  have hbd : goDir (mkAbs (bsegs ++ [mx])) = mkAbs bsegs :=
    goDir_mkAbs_append bsegs mx hgb hmx
  set r := mkResource env.cwd (mkAbs (bsegs ++ [mx])) meta with hr
  have hrmeta : r.meta = meta := by rw [hr]; simp [mkResource]
  have hrfiles : r.files = GetAllFiles meta (mkAbs (bsegs ++ [mx])) := by
    rw [hr]; simp [mkResource, habs]
  have hext : ∀ sc ∈ meta.scripts,
      goToLower (goExt (goJoin (goDir (mkAbs (bsegs ++ [mx]))) sc.src)) ≠
        str ".lua" := by
    intro sc hsc
    obtain ⟨hne, qs, hsrc, hgq, hq0⟩ := hscripts sc hsc
    rw [hbd, hsrc, goJoin_mkAbs_joinSegs bsegs qs hgb hgq hq0]
    rcases qs.eq_nil_or_concat with h | ⟨qi, qx, hq⟩
    · exact absurd h hq0
    · subst hq
      simp only [List.concat_eq_append] at hgq hq0 hsrc ⊢
      have hgqi : goodSegs qi = true ∧ goodSeg qx = true := by
        have := hgq
        simp only [goodSegs, List.all_append, List.all_cons, List.all_nil,
          Bool.and_eq_true, Bool.and_true] at this
        exact ⟨this.1, this.2⟩
      have hxs : '/' ∉ qx := (goodSeg_spec qx hgqi.2).2.1
      rw [show bsegs ++ (qi ++ [qx]) = (bsegs ++ qi) ++ [qx] by simp,
        goExt_mkAbs_append _ _ hxs]
      have hjoin : goExt (joinSegs (qi ++ [qx])) = goExt qx := by
        cases hqi : qi with
        | nil => rfl
        | cons a b =>
          rw [← hqi]
          exact goExt_joinSegs_append qi qx hgqi.1 (by rw [hqi]; simp) hxs
      rw [hsrc, hjoin] at hne
      exact hne
  have hlua : GetLuaFiles r = [] := by
    simp only [GetLuaFiles]
    refine filter_eq_nil_of_all _ _ ?_
    intro x hx
    rw [hrfiles] at hx
    simp only [GetAllFiles, List.mem_append, List.mem_map] at hx
    rw [decide_eq_false_iff_not]
    rintro ⟨h1, h2⟩
    rcases hx with ((((⟨sc, hsc, rfl⟩ | ⟨m, _, rfl⟩) | ⟨c, _, rfl⟩) |
      ⟨f, _, rfl⟩) | ⟨h, _, rfl⟩)
    · exact hext sc hsc h2
    · exact ReferenceType.noConfusion h1
    · exact ReferenceType.noConfusion h1
    · exact ReferenceType.noConfusion h1
    · exact ReferenceType.noConfusion h1
  have hlt : GetLuaFilesByType r = ([], [], []) := by
    have h0 : GetLuaFilesByType r = getLuaFilesByTypeAux r.baseDir r.meta.scripts := rfl
    have hfe : ∀ q : Script → Bool, ∀ sc ∈ r.meta.scripts,
        (isLuaScriptB sc && q sc) = false := by
      intro q sc hsc
      have : isLuaScriptB sc = false := by
        rw [isLuaScriptB, decide_eq_false_iff_not]
        exact (hscripts sc (by rwa [hrmeta] at hsc)).1
      simp [this]
    rw [h0, getLuaFilesByTypeAux_eq_filters,
      filter_eq_nil_of_all _ _ (hfe _), filter_eq_nil_of_all _ _ (hfe _),
      filter_eq_nil_of_all _ _ (hfe _)]
    rfl
  constructor
  · simp [compileIndividualM, hlua]
  · simp [compileMergedM, hlt]

/-- Witness for C9: a resource whose manifest declares a non-lua script,
a map and a file; both modes succeed with an empty effect trace. -/
theorem c9_no_lua_scripts_no_output_witness :
    goodSegs [str "res"] = true ∧ goodSeg (str "meta.xml") = true ∧
    compileIndividualM allOkEnv
      (mkResource allOkEnv.cwd (mkAbs ([str "res"] ++ [str "meta.xml"])) noLuaMeta)
      (str "/res") (str "/out") = (some (), []) ∧
    compileMergedM allOkEnv
      (mkResource allOkEnv.cwd (mkAbs ([str "res"] ++ [str "meta.xml"])) noLuaMeta)
      (str "/res") (str "/out") = (some (), []) := by
  have h := c9_no_lua_scripts_no_output allOkEnv (str "/res") (str "/out")
    [str "res"] (str "meta.xml") noLuaMeta (by decide) (by decide) (by
      intro sc hsc
      have hsc1 : sc = ⟨str "readme.txt", [], [], []⟩ := by
        simpa [noLuaMeta] using hsc
      subst hsc1
      exact ⟨by decide, ⟨[str "readme.txt"], by decide, by decide, by decide⟩⟩)
  exact ⟨by decide, by decide, h.1, h.2⟩

/-! ## Claim C7 -/

/-- C7: the claim says the individual-mode rewrite touches only the
final `.lua` directly before the `src` attribute's closing quote.  The
replacement callback keys on `strings.Contains(match, "\"")`, so for the
single-quoted attribute `src='x.lua"y.lua'` — whose value legally
contains a double quote — it rewrites the *inner* `.lua"` occurrence and
leaves the final one alone.  This theorem evaluates the rewrite at that
failing input. -/
theorem c7_inner_occurrence_rewritten_in_single_quoted_src :
    replaceAllLuaSrc trickySrcContent = trickySrcCodeOutput ∧
    trickySrcCodeOutput ≠ trickySrcClaimOutput := by
  refine ⟨by decide, by decide⟩

/-! ## Claim C10 -/

theorem copyFileReferencesM_no_compileMany (env : Env) (r : Resource)
    (a o b : GoStr) (l : List FileReference) :
    (copyFileReferencesM env r a o b l).1.filterMap effCompileMany = [] := by
  induction l with
  | nil => rfl
  | cons x xs ih =>
    simp only [copyFileReferencesM]
    cases hcalc : calculateFileOutputPath r a o b x with
    | none => simpa using ih
    | some out =>
      by_cases hm : env.mkdirOk (goDir out) = true
      · by_cases hcp : env.copyOk x.fullPath out = true
        · simp [hm, hcp, List.filterMap_cons, effCompileMany, ih]
        · simp [hm, hcp, List.filterMap_cons, effCompileMany, ih]
      · simp [hm, List.filterMap_cons, effCompileMany, ih]

theorem mergedGroupCompile_compileMany (env : Env) (group : List FileReference)
    (outputPath : GoStr) (hm : env.mkdirOk (goDir outputPath) = true) :
    (mergedGroupCompile env group outputPath).1.filterMap effCompileMany =
      [(group.map (fun f => f.fullPath), outputPath)] := by
  simp only [mergedGroupCompile, hm, not_true_eq_false, Bool.false_eq_true,
    if_false]
  cases hcm : env.compileMany (group.map (fun f => f.fullPath)) outputPath with
  | none => simp [List.filterMap_cons, effCompileMany]
  | some ok => simp [List.filterMap_cons, effCompileMany]

/-- C10: in merged mode the ordered input list handed to the compiler
for the client unit is exactly the client-audience `.lua` scripts in
manifest document order followed by the shared-audience `.lua` scripts
in document order, and for the server unit the server-audience scripts
(unspecified audiences included) in document order followed by the
shared scripts; shared scripts occur in both units, once per unit, since
each unit is one order-preserving filter concatenation. -/
theorem c10_merged_compiler_inputs
    (env : Env) (r : Resource) (inputPath outputFile metaOut : GoStr)
    (hmk : ∀ p, env.mkdirOk p = true)
    (hw : ∀ p, env.writeOk p = true)
    (hmeta : metaOutputPathM r (goAbs env.cwd inputPath) outputFile
      (getBaseOutputDirM env.cwd r outputFile) = some metaOut)
    (hc : (GetLuaFilesByType r).1 ++ (GetLuaFilesByType r).2.2 ≠ [])
    (hs : (GetLuaFilesByType r).2.1 ++ (GetLuaFilesByType r).2.2 ≠ []) :
    (compileMergedM env r inputPath outputFile).2.filterMap effCompileMany =
      [((r.meta.scripts.filter (fun sc => isLuaScriptB sc && isClientScriptB sc)
          ++ r.meta.scripts.filter (fun sc => isLuaScriptB sc && isSharedScriptB sc)).map
          (fun sc => goJoin r.baseDir sc.src),
        mergedGroupOutputPath r (goAbs env.cwd inputPath) outputFile
          (getBaseOutputDirM env.cwd r outputFile) (str "client.luac")),
       ((r.meta.scripts.filter (fun sc => isLuaScriptB sc && isServerScriptB sc)
          ++ r.meta.scripts.filter (fun sc => isLuaScriptB sc && isSharedScriptB sc)).map
          (fun sc => goJoin r.baseDir sc.src),
        mergedGroupOutputPath r (goAbs env.cwd inputPath) outputFile
          (getBaseOutputDirM env.cwd r outputFile) (str "server.luac"))] := by
  have hcol : ¬ ((GetLuaFilesByType r).1 ++ (GetLuaFilesByType r).2.2 = [] ∧
      (GetLuaFilesByType r).2.1 ++ (GetLuaFilesByType r).2.2 = []) := by
    rintro ⟨h1, _⟩
    exact hc h1
  simp only [compileMergedM, if_neg hcol, hmk, hw, hmeta, not_true_eq_false,
    Bool.false_eq_true, if_false, ne_eq, hc, hs, not_false_eq_true, if_true,
    false_and, and_self]
  rw [List.filterMap_append, List.filterMap_append, List.filterMap_append]
  rw [copyFileReferencesM_no_compileMany,
    mergedGroupCompile_compileMany env _ _ (hmk _),
    mergedGroupCompile_compileMany env _ _ (hmk _)]
  have hone : List.filterMap effCompileMany
      [Effect.mkdirAll (getBaseOutputDirM env.cwd r outputFile),
       Effect.mkdirAll (goDir metaOut), Effect.writeMeta metaOut] = [] := rfl
  rw [hone]
  have hgl : GetLuaFilesByType r = getLuaFilesByTypeAux r.baseDir r.meta.scripts := rfl
  rw [hgl, getLuaFilesByTypeAux_eq_filters]
  have hcomp : ((fun f : FileReference => f.fullPath) ∘ scriptFileRef r.baseDir) =
      (fun sc : Script => goJoin r.baseDir sc.src) := by
    funext sc
    rfl
  simp [List.map_append, List.map_map, hcomp]

/-- Witness for C10: a resource declaring a client, a shared, a server
and an untyped script; the client unit receives `a.lua` then `b.lua`,
the server unit `c.lua`, `d.lua` then `b.lua`. -/
theorem c10_merged_compiler_inputs_witness :
    (∀ p, allOkEnv.mkdirOk p = true) ∧ (∀ p, allOkEnv.writeOk p = true) ∧
    metaOutputPathM fourScriptResource
      (goAbs allOkEnv.cwd (str "/res")) (str "/out")
      (getBaseOutputDirM allOkEnv.cwd fourScriptResource (str "/out")) =
      some (str "/out/meta.xml") ∧
    (GetLuaFilesByType fourScriptResource).1 ++
      (GetLuaFilesByType fourScriptResource).2.2 ≠ [] ∧
    (GetLuaFilesByType fourScriptResource).2.1 ++
      (GetLuaFilesByType fourScriptResource).2.2 ≠ [] ∧
    (compileMergedM allOkEnv fourScriptResource (str "/res") (str "/out")).2.filterMap
        effCompileMany =
      [([str "/res/a.lua", str "/res/b.lua"], str "/out/client.luac"),
       ([str "/res/c.lua", str "/res/d.lua", str "/res/b.lua"], str "/out/server.luac")] := by
  have h := c10_merged_compiler_inputs allOkEnv fourScriptResource
    (str "/res") (str "/out") (str "/out/meta.xml")
    (fun p => rfl) (fun p => rfl) (by decide) (by decide) (by decide)
  refine ⟨fun p => rfl, fun p => rfl, by decide, by decide, by decide, ?_⟩
  rw [h]
  decide

/-! ## Claim C8 -/

/-- C8's counterexample: the claim says the final exit status is
non-zero-equivalent when at least one resource failed.  In a batch of
two manifests whose compilations both fail, the loop records the
failures, `compileResources` still returns `nil`, and `main` exits
with status 0. -/
theorem c8_failed_resources_still_exit_zero :
    (compileResourcesBatchM (fun _ => some dummyResource) (fun _ => none)
      [str "/a/meta.xml", str "/b/meta.xml"]).1 =
      [MetaOutcome.compileError, MetaOutcome.compileError] ∧
    mainExitCode (compileResourcesBatchM (fun _ => some dummyResource)
      (fun _ => none) [str "/a/meta.xml", str "/b/meta.xml"]).2 = 0 := by
  refine ⟨by decide, by decide⟩

/-- C8, as amended: a failure while bundling one resource never unwinds
past that resource — the batch driver attempts every discovered manifest
in order regardless of earlier per-resource errors — but the process's
final exit status is success (zero) regardless of per-resource failures,
which are only logged. -/
theorem c8_batch_attempts_all_and_exits_zero
    (newRes : GoStr → Option Resource) (compileRes : Resource → Option Unit)
    (metaPaths : List GoStr) :
    (compileResourcesBatchM newRes compileRes metaPaths).1 =
      metaPaths.map (metaOutcomeOf newRes compileRes) ∧
    mainExitCode (compileResourcesBatchM newRes compileRes metaPaths).2 = 0 := by
  constructor
  · induction metaPaths with
    | nil => rfl
    | cons m rest ih =>
      simp only [compileResourcesBatchM, compileResourcesLoopM, List.map_cons]
      simp only [compileResourcesBatchM] at ih
      cases h1 : newRes m with
      | none => simpa [metaOutcomeOf, h1] using ih
      | some r =>
        cases h2 : compileRes r with
        | none => simpa [metaOutcomeOf, h1, h2] using ih
        | some _ => simpa [metaOutcomeOf, h1, h2] using ih
  · rfl

end MtaBundler
